import Mathlib

/-!
# The `PubSub` event bus of `Observer-pattern/pub.js`

A shallow embedding of the class `PubSub` (constructor, `subscribe`,
`unsubscribe`, `publish`) and of the part of the JavaScript object model its
three methods rely on:

* `this.subscribers` is a plain object literal `{}`: reading
  `this.subscribers[event]` finds an own property first and otherwise walks to
  `Object.prototype`, whose properties (`constructor`, `toString`, ...) are
  truthy values that are not arrays;
* subscribers are function objects compared with `!==`, that is by identity;
* `push` edits the stored array in place, `filter` builds a new array, and
  `forEach` reads the length of the array once, before the first call.

The code of a subscriber belongs to the callers. An invocation is modelled as
the `subscribe` and `unsubscribe` calls it makes on the bus, in order, followed
by a return or a throw; subscribers that call `publish` themselves are outside
the model.
-/

set_option autoImplicit false

namespace Observer

/-! ## Data model -/

/-- Identity of a function object: subscribers are compared by reference. -/
abbrev Callback := Nat

/-- Event names are the strings used as property keys of `this.subscribers`. -/
abbrev EventName := String

/-- Faults a call can end with: a `TypeError` raised by the bus's own code
(`x.push`, `x.filter` or `x.forEach` is not a function), or a value thrown by a
subscriber. -/
inductive Fault where
  | typeError
  | thrown (tag : Nat)
  deriving DecidableEq, Repr

deriving instance DecidableEq for Except

/-- The property names a plain object inherits from `Object.prototype`
(ECMA-262 section 20.1.3 and Annex B.2.2). Each resolves to a function, and
`__proto__` to `Object.prototype` itself: truthy, and without `push`, `filter`
or `forEach`. -/
def objectPrototypeKeys : List String :=
  ["constructor", "toString", "toLocaleString", "valueOf", "hasOwnProperty",
   "isPrototypeOf", "propertyIsEnumerable", "__proto__", "__defineGetter__",
   "__defineSetter__", "__lookupGetter__", "__lookupSetter__"]

/-- What the expression `this.subscribers[event]` evaluates to. -/
inductive Slot where
  | undefined
  | array (cbs : List Callback)
  | inherited
  deriving DecidableEq, Repr

/-- JavaScript truthiness: `undefined` is falsy, every object (an empty array
included) and every function is truthy. -/
def Slot.truthy : Slot → Bool
  | .undefined => false
  | .array _ => true
  | .inherited => true

/-- Own-property lookup in an object whose values are arrays of callbacks. -/
def getOwn : List (EventName × List Callback) → EventName → Option (List Callback)
  | [], _ => none
  | (k, v) :: rest, event => if k = event then some v else getOwn rest event

/-- Own-property assignment `obj[event] = v`: an existing key keeps its place,
a new key is added. -/
def setOwn : List (EventName × List Callback) → EventName → List Callback →
    List (EventName × List Callback)
  | [], event, v => [(event, v)]
  | (k, w) :: rest, event, v =>
    if k = event then (k, v) :: rest else (k, w) :: setOwn rest event v

/-- The bus: `this.subscribers`, the own properties of the registry object. -/
structure PubSub where
  subscribers : List (EventName × List Callback)
  deriving DecidableEq, Repr

/-- The closure `() => this.unsubscribe(event, callback)` returned by
`subscribe`, as the two variables it captures. -/
structure Handle where
  event : EventName
  callback : Callback
  deriving DecidableEq, Repr

namespace PubSub

/-- The `constructor()`: `this.subscribers = {}`. -/
def constructor : PubSub := ⟨[]⟩

/-- The expression `this.subscribers[event]`: own property, else the prototype chain. -/
def get (self : PubSub) (event : EventName) : Slot :=
  match getOwn self.subscribers event with
  | some cbs => .array cbs
  | none => if event ∈ objectPrototypeKeys then .inherited else .undefined

/-- The assignment `this.subscribers[event] = v`. -/
def set (self : PubSub) (event : EventName) (v : List Callback) : PubSub :=
  ⟨setOwn self.subscribers event v⟩

/-- The subscriber sequence of an event: its own entry, the empty sequence when
it has none. -/
def seq (self : PubSub) (event : EventName) : List Callback :=
  (getOwn self.subscribers event).getD []

/-- Whether the event has a registry entry (an own property). -/
def hasEntry (self : PubSub) (event : EventName) : Bool :=
  (getOwn self.subscribers event).isSome

/-- The method `subscribe(event, callback)` (lines 38-50). -/
def subscribe (self : PubSub) (event : EventName) (callback : Callback) :
    Except Fault (PubSub × Handle) :=
  let self1 := if !(self.get event).truthy then self.set event [] else self
  match self1.get event with
  | .array cbs => .ok (self1.set event (cbs ++ [callback]), ⟨event, callback⟩)
  | .inherited => .error .typeError
  | .undefined => .error .typeError

/-- The method `unsubscribe(event, callback)` (lines 52-61). -/
def unsubscribe (self : PubSub) (event : EventName) (callback : Callback) :
    Except Fault PubSub :=
  if !(self.get event).truthy then .ok self
  else
    match self.get event with
    | .array cbs => .ok (self.set event (cbs.filter (fun cb => cb != callback)))
    | .inherited => .error .typeError
    | .undefined => .error .typeError

end PubSub

/-- Invoking a handle runs `this.unsubscribe(event, callback)` on the bus as it
is at that moment. -/
def Handle.invoke (h : Handle) (bus : PubSub) : Except Fault PubSub :=
  bus.unsubscribe h.event h.callback

/-! ## Subscribers and dispatch -/

/-- A call a subscriber makes on the bus while it runs. -/
inductive Action where
  | subscribe (event : EventName) (callback : Callback)
  | unsubscribe (event : EventName) (callback : Callback)
  deriving DecidableEq, Repr

/-- The event an action is about. -/
def Action.event : Action → EventName
  | .subscribe e _ => e
  | .unsubscribe e _ => e

/-- What one invocation of a subscriber does: the calls it makes on the bus, in
order, and then whether it returns (`none`) or throws (`some tag`). -/
structure Behaviour where
  actions : List Action
  throws : Option Nat
  deriving DecidableEq, Repr

/-- The code of the subscribers, supplied by the callers: what the function
object does when invoked with a payload on a given bus. -/
abbrev Subscribers (δ : Type) := Callback → δ → PubSub → Behaviour

/-- The state of one `forEach` traversal. `target` is the array object being
traversed; `live` tells whether that object is still the value of
`this.subscribers[event]`, so that a `push` through the registry is seen by
the traversal; `calls` is the invocation trace. -/
structure Dispatch (δ : Type) where
  bus : PubSub
  target : List Callback
  live : Bool
  calls : List (Callback × δ)

/-- One call a subscriber makes on the bus during the dispatch of `event`.
`subscribe` pushes onto the stored array, which is the traversed one while
`live`; `unsubscribe` on an existing entry of `event` stores a new array. -/
def runAction {δ : Type} (event : EventName) (st : Dispatch δ) :
    Action → Except Fault (Dispatch δ)
  | .subscribe e c =>
    match st.bus.subscribe e c with
    | .error f => .error f
    | .ok (bus, _) =>
      .ok ⟨bus, if e = event ∧ st.live = true then st.target ++ [c] else st.target,
        st.live, st.calls⟩
  | .unsubscribe e c =>
    match st.bus.unsubscribe e c with
    | .error f => .error f
    | .ok bus =>
      .ok ⟨bus, st.target, st.live && !(decide (e = event) && st.bus.hasEntry e), st.calls⟩

/-- The calls of a subscriber in order; the first fault ends the subscriber. -/
def runActions {δ : Type} (event : EventName) :
    Dispatch δ → List Action → Dispatch δ × Option Fault
  | st, [] => (st, none)
  | st, a :: rest =>
    match runAction event st a with
    | .error f => (st, some f)
    | .ok st1 => runActions event st1 rest

/-- The body of the arrow function passed to `forEach`: `callback(data)`. -/
def invoke {δ : Type} (env : Subscribers δ) (event : EventName) (data : δ)
    (st : Dispatch δ) (callback : Callback) : Dispatch δ × Option Fault :=
  let b := env callback data st.bus
  match runActions event ⟨st.bus, st.target, st.live, st.calls ++ [(callback, data)]⟩
      b.actions with
  | (st1, some f) => (st1, some f)
  | (st1, none) => (st1, b.throws.map Fault.thrown)

/-- The loop of `Array.prototype.forEach` from index `k` with `n` indices left
(`k + n` is the length read before the first call): an index that is present is
passed to the arrow function, a fault leaves the loop. -/
def forEachFrom {δ : Type} (env : Subscribers δ) (event : EventName) (data : δ) :
    Nat → Nat → Dispatch δ → Dispatch δ × Option Fault
  | 0, _, st => (st, none)
  | n + 1, k, st =>
    match st.target[k]? with
    | none => forEachFrom env event data n (k + 1) st
    | some c =>
      match invoke env event data st c with
      | (st1, some f) => (st1, some f)
      | (st1, none) => forEachFrom env event data n (k + 1) st1

/-- What a call of `publish` leaves behind: the bus, the invocation trace and
the fault it ended with, if any. -/
structure Outcome (δ : Type) where
  bus : PubSub
  calls : List (Callback × δ)
  fault : Option Fault

/-- The method `publish(event, data)` (lines 69-80). -/
def PubSub.publish {δ : Type} (env : Subscribers δ) (self : PubSub) (event : EventName)
    (data : δ) : Outcome δ :=
  if !(self.get event).truthy then ⟨self, [], none⟩
  else
    match self.get event with
    | .array cbs =>
      let r := forEachFrom env event data cbs.length 0 ⟨self, cbs, true, []⟩
      ⟨r.1.bus, r.1.calls, r.2⟩
    | .inherited => ⟨self, [], some .typeError⟩
    | .undefined => ⟨self, [], some .typeError⟩

/-- A subscriber that neither faults nor touches the bus, whatever the state. -/
def Quiet {δ : Type} (env : Subscribers δ) (data : δ) (c : Callback) : Prop :=
  ∀ bus, env c data bus = ⟨[], none⟩

/-- The subscribers of the demo script: they only log. -/
def logOnly {δ : Type} : Subscribers δ := fun _ _ _ => ⟨[], none⟩

/-- Subscribers of which number `bad` throws `tag` and the others only log. -/
def throwing {δ : Type} (bad : Callback) (tag : Nat) : Subscribers δ :=
  fun c _ _ => if c = bad then ⟨[], some tag⟩ else ⟨[], none⟩

/-- Subscribers of which number `0`, whenever invoked, unsubscribes `1` from
`iphone13` and subscribes `2` to it; the others only log. -/
def meddling {δ : Type} : Subscribers δ :=
  fun c _ _ =>
    if c = 0 then ⟨[.unsubscribe "iphone13" 1, .subscribe "iphone13" 2], none⟩
    else ⟨[], none⟩

/-- Subscribers of which number `0`, whenever invoked, subscribes `3` to the
event named `toString`; the others only log. None of them throws. -/
def prying {δ : Type} : Subscribers δ :=
  fun c _ _ => if c = 0 then ⟨[.subscribe "toString" 3], none⟩ else ⟨[], none⟩

/-- Subscribers of which number `0` runs once only: on a bus where the event
`seen` has no subscriber it subscribes `9` to `seen` and returns, on any other
bus it throws `42`; the others only log. -/
def onceOnly {δ : Type} : Subscribers δ :=
  fun c _ bus =>
    if c = 0 then
      (if bus.seq "seen" = [] then ⟨[.subscribe "seen" 9], none⟩ else ⟨[], some 42⟩)
    else ⟨[], none⟩

/-- Two buses that the three methods cannot tell apart: every event has the
same subscriber sequence on both, an event with no entry counting as the empty
sequence, and a name inherited from `Object.prototype` has an entry on both or
on neither. -/
def Alike (s t : PubSub) : Prop :=
  ∀ e, s.seq e = t.seq e ∧ (e ∈ objectPrototypeKeys → s.hasEntry e = t.hasEntry e)

/-- Two traversals of the sequence of `event` in step with each other, on buses
that are alike. -/
def DispatchAlike {δ : Type} (event : EventName) (st st2 : Dispatch δ) : Prop :=
  Alike st.bus st2.bus ∧ st.bus.hasEntry event = st2.bus.hasEntry event ∧
    st.target = st2.target ∧ st.live = st2.live ∧ st.calls = st2.calls

/-- Subscribers whose behaviour on a payload does not depend on the registry
they find: they do not inspect `this.subscribers`. -/
def Oblivious {δ : Type} (env : Subscribers δ) (data : δ) : Prop :=
  ∀ c bus bus2, env c data bus = env c data bus2

/-! ## Callers: sequences of calls on one bus -/

/-- A caller making `subscribe` calls one after the other; a fault ends it. -/
def subscribeEach : PubSub → List (EventName × Callback) → Except Fault PubSub
  | s, [] => .ok s
  | s, (e, c) :: rest =>
    match s.subscribe e c with
    | .error f => .error f
    | .ok (s1, _) => subscribeEach s1 rest

/-- One `subscribe` or `unsubscribe` call made by a caller that goes on after a
fault. Both methods fault before any assignment, so a faulted call leaves the
bus as it was. -/
def applyCall (s : PubSub) : Action → PubSub
  | .subscribe e c =>
    match s.subscribe e c with
    | .ok (s1, _) => s1
    | .error _ => s
  | .unsubscribe e c =>
    match s.unsubscribe e c with
    | .ok s1 => s1
    | .error _ => s

/-- The bus after a history of calls, from a given bus. -/
def runFrom (s : PubSub) (history : List Action) : PubSub :=
  history.foldl applyCall s

/-- The bus after a history of calls on a newly constructed bus. -/
def runHistory (history : List Action) : PubSub :=
  runFrom PubSub.constructor history

/-- The sequence the reachable-state invariant expects for `event` after a
history: the callbacks of the `subscribe(event, c)` calls, in call order, one
per call, keeping the calls not followed later by an `unsubscribe(event, c)`. -/
def survivors : List Action → EventName → List Callback
  | [], _ => []
  | .subscribe e c :: rest, event =>
    if e = event ∧ Action.unsubscribe event c ∉ rest then c :: survivors rest event
    else survivors rest event
  | .unsubscribe _ _ :: rest, event => survivors rest event

/-! ## The registry object -/

theorem getOwn_setOwn_same (l : List (EventName × List Callback)) (e : EventName)
    (v : List Callback) : getOwn (setOwn l e v) e = some v := by
  induction l with
  | nil => simp [setOwn, getOwn]
  | cons p rest ih =>
    obtain ⟨k, w⟩ := p
    by_cases h : k = e
    · simp [setOwn, getOwn, h]
    · simp [setOwn, getOwn, h, ih]

theorem getOwn_setOwn_other (l : List (EventName × List Callback)) (e e2 : EventName)
    (v : List Callback) (hne : e2 ≠ e) : getOwn (setOwn l e v) e2 = getOwn l e2 := by
  induction l with
  | nil =>
    have : ¬ e = e2 := fun h => hne h.symm
    simp [setOwn, getOwn, this]
  | cons p rest ih =>
    obtain ⟨k, w⟩ := p
    by_cases h : k = e
    · subst h
      have : ¬ k = e2 := fun h => hne h.symm
      simp [setOwn, getOwn, this]
    · by_cases h2 : k = e2
      · subst h2
        simp [setOwn, getOwn, hne]
      · simp [setOwn, getOwn, h, h2, ih]

theorem setOwn_setOwn (l : List (EventName × List Callback)) (e : EventName)
    (v w : List Callback) : setOwn (setOwn l e v) e w = setOwn l e w := by
  induction l with
  | nil => simp [setOwn]
  | cons p rest ih =>
    obtain ⟨k, u⟩ := p
    by_cases h : k = e
    · simp [setOwn, h]
    · simp [setOwn, h, ih]

theorem setOwn_of_getOwn (l : List (EventName × List Callback)) (e : EventName)
    (v : List Callback) (h : getOwn l e = some v) : setOwn l e v = l := by
  induction l with
  | nil => simp [getOwn] at h
  | cons p rest ih =>
    obtain ⟨k, u⟩ := p
    by_cases hk : k = e
    · simp [getOwn, hk] at h
      simp [setOwn, hk, h]
    · simp [getOwn, hk] at h
      simp [setOwn, hk, ih h]

namespace PubSub

theorem seq_set_same (s : PubSub) (e : EventName) (v : List Callback) :
    (s.set e v).seq e = v := by
  simp [seq, set, getOwn_setOwn_same]

theorem seq_set_other (s : PubSub) (e e2 : EventName) (v : List Callback) (hne : e2 ≠ e) :
    (s.set e v).seq e2 = s.seq e2 := by
  simp [seq, set, getOwn_setOwn_other _ _ _ _ hne]

theorem hasEntry_set_same (s : PubSub) (e : EventName) (v : List Callback) :
    (s.set e v).hasEntry e = true := by
  simp [hasEntry, set, getOwn_setOwn_same]

theorem hasEntry_set_other (s : PubSub) (e e2 : EventName) (v : List Callback) (hne : e2 ≠ e) :
    (s.set e v).hasEntry e2 = s.hasEntry e2 := by
  simp [hasEntry, set, getOwn_setOwn_other _ _ _ _ hne]

theorem get_of_hasEntry (s : PubSub) (e : EventName) (h : s.hasEntry e = true) :
    s.get e = .array (s.seq e) := by
  unfold hasEntry at h
  unfold get seq
  cases hg : getOwn s.subscribers e with
  | none => simp [hg] at h
  | some cbs => simp

theorem get_of_not_hasEntry (s : PubSub) (e : EventName) (h : s.hasEntry e = false) :
    s.get e = if e ∈ objectPrototypeKeys then .inherited else .undefined := by
  unfold hasEntry at h
  unfold get
  cases hg : getOwn s.subscribers e with
  | none => simp
  | some cbs => simp [hg] at h

theorem seq_of_not_hasEntry (s : PubSub) (e : EventName) (h : s.hasEntry e = false) :
    s.seq e = [] := by
  unfold hasEntry at h
  unfold seq
  cases hg : getOwn s.subscribers e with
  | none => simp
  | some cbs => simp [hg] at h

/-- Where the property lookup yields an array or `undefined`, `subscribe`
returns, having appended the callback to the event's sequence. -/
theorem subscribe_ok (s : PubSub) (e : EventName) (c : Callback)
    (h : s.hasEntry e = true ∨ e ∉ objectPrototypeKeys) :
    s.subscribe e c = .ok (s.set e (s.seq e ++ [c]), ⟨e, c⟩) := by
  cases he : s.hasEntry e with
  | true =>
    simp [subscribe, get_of_hasEntry s e he, Slot.truthy]
  | false =>
    have hk : e ∉ objectPrototypeKeys := by
      rcases h with h | h
      · simp [he] at h
      · exact h
    have h1 : (s.set e []).get e = .array [] := by
      rw [get_of_hasEntry _ _ (hasEntry_set_same s e [])]
      simp [seq_set_same]
    have h2 : (s.set e []).set e ([] ++ [c]) = s.set e (s.seq e ++ [c]) := by
      simp [seq_of_not_hasEntry s e he, set, setOwn_setOwn]
    simp only [subscribe, get_of_not_hasEntry s e he, hk, Slot.truthy, if_false,
      Bool.not_false, if_true, h1, h2]

/-- Outside the faulting case, `subscribe` appends the callback at the end of
the event's sequence, also when it is already present, and leaves every other
event as it was. -/
theorem subscribe_appends (s : PubSub) (e : EventName) (c : Callback)
    (h : s.hasEntry e = true ∨ e ∉ objectPrototypeKeys) :
    ∃ s1 hd, s.subscribe e c = .ok (s1, hd) ∧ s1.seq e = s.seq e ++ [c] ∧
      ∀ e2, e2 ≠ e → s1.seq e2 = s.seq e2 ∧ s1.hasEntry e2 = s.hasEntry e2 :=
  ⟨_, _, subscribe_ok s e c h, seq_set_same s e _,
    fun e2 hne => ⟨seq_set_other s e e2 _ hne, hasEntry_set_other s e e2 _ hne⟩⟩

/-- The one case in which `subscribe` faults: no own entry, and a name found on
`Object.prototype`. -/
theorem subscribe_inherited (s : PubSub) (e : EventName) (c : Callback)
    (he : s.hasEntry e = false) (hk : e ∈ objectPrototypeKeys) :
    s.subscribe e c = .error .typeError := by
  simp [subscribe, get_of_not_hasEntry s e he, hk, Slot.truthy]

theorem unsubscribe_of_hasEntry (s : PubSub) (e : EventName) (c : Callback)
    (h : s.hasEntry e = true) :
    s.unsubscribe e c = .ok (s.set e ((s.seq e).filter (fun cb => cb != c))) := by
  simp [unsubscribe, get_of_hasEntry s e h, Slot.truthy]

theorem unsubscribe_absent (s : PubSub) (e : EventName) (c : Callback)
    (he : s.hasEntry e = false) (hk : e ∉ objectPrototypeKeys) :
    s.unsubscribe e c = .ok s := by
  simp [unsubscribe, get_of_not_hasEntry s e he, hk, Slot.truthy]

theorem unsubscribe_inherited (s : PubSub) (e : EventName) (c : Callback)
    (he : s.hasEntry e = false) (hk : e ∈ objectPrototypeKeys) :
    s.unsubscribe e c = .error .typeError := by
  simp [unsubscribe, get_of_not_hasEntry s e he, hk, Slot.truthy]

end PubSub

/-! ## The traversal -/

theorem getElem?_length_append (done tl : List Callback) (c : Callback) :
    (done ++ c :: tl)[done.length]? = some c := by
  rw [List.getElem?_append_right (Nat.le_refl _)]
  simp

/-- A call made by a subscriber leaves the trace alone and can only add
entries at the end of the traversed array. -/
theorem runAction_frame {δ : Type} (event : EventName) (st st1 : Dispatch δ) (a : Action)
    (h : runAction event st a = .ok st1) :
    st1.calls = st.calls ∧ ∃ ext, st1.target = st.target ++ ext := by
  cases a with
  | subscribe e c =>
    unfold runAction at h
    cases hs : st.bus.subscribe e c with
    | error f => simp [hs] at h
    | ok r =>
      obtain ⟨bus, hd⟩ := r
      simp only [hs, Except.ok.injEq] at h
      subst h
      refine ⟨rfl, ?_⟩
      by_cases hc : e = event ∧ st.live = true
      · exact ⟨[c], by simp [hc]⟩
      · exact ⟨[], by simp [hc]⟩
  | unsubscribe e c =>
    unfold runAction at h
    cases hs : st.bus.unsubscribe e c with
    | error f => simp [hs] at h
    | ok bus =>
      simp only [hs, Except.ok.injEq] at h
      subst h
      exact ⟨rfl, [], by simp⟩

/-- A call on an event name that is not inherited from `Object.prototype`
cannot fault. -/
theorem runAction_safe {δ : Type} (event : EventName) (st : Dispatch δ) (a : Action)
    (h : a.event ∉ objectPrototypeKeys) : ∃ st1, runAction event st a = .ok st1 := by
  cases a with
  | subscribe e c =>
    have hs := PubSub.subscribe_ok st.bus e c (Or.inr h)
    simp [runAction, hs]
  | unsubscribe e c =>
    cases he : st.bus.hasEntry e with
    | true => simp [runAction, PubSub.unsubscribe_of_hasEntry st.bus e c he]
    | false => simp [runAction, PubSub.unsubscribe_absent st.bus e c he h]

theorem runActions_frame {δ : Type} (event : EventName) (acts : List Action) :
    ∀ st : Dispatch δ, (runActions event st acts).1.calls = st.calls ∧
      ∃ ext, (runActions event st acts).1.target = st.target ++ ext := by
  induction acts with
  | nil => intro st; exact ⟨rfl, [], by simp [runActions]⟩
  | cons a rest ih =>
    intro st
    unfold runActions
    cases ha : runAction event st a with
    | error f => exact ⟨rfl, [], by simp⟩
    | ok st1 =>
      obtain ⟨hc, ext, ht⟩ := runAction_frame event st st1 a ha
      obtain ⟨hc2, ext2, ht2⟩ := ih st1
      refine ⟨by simp [hc2, hc], ext ++ ext2, ?_⟩
      simp [ht2, ht]

theorem runActions_safe {δ : Type} (event : EventName) (acts : List Action) :
    ∀ st : Dispatch δ, (∀ a ∈ acts, a.event ∉ objectPrototypeKeys) →
      (runActions event st acts).2 = none := by
  induction acts with
  | nil => intro st _; rfl
  | cons a rest ih =>
    intro st h
    obtain ⟨st1, h1⟩ := runAction_safe event st a (h a (by simp))
    unfold runActions
    simp only [h1]
    exact ih st1 (fun b hb => h b (by simp [hb]))

/-- Every invocation is recorded once, with the payload, and the traversed
array keeps its entries. -/
theorem invoke_frame {δ : Type} (env : Subscribers δ) (event : EventName) (data : δ)
    (st : Dispatch δ) (c : Callback) :
    (invoke env event data st c).1.calls = st.calls ++ [(c, data)] ∧
      ∃ ext, (invoke env event data st c).1.target = st.target ++ ext := by
  have h := runActions_frame event (env c data st.bus).actions
    ⟨st.bus, st.target, st.live, st.calls ++ [(c, data)]⟩
  simp only [invoke]
  generalize runActions event ⟨st.bus, st.target, st.live, st.calls ++ [(c, data)]⟩
    (env c data st.bus).actions = r at h
  obtain ⟨st1, f⟩ := r
  cases f <;> exact h

/-- An invocation of a subscriber that does not throw and only makes calls on
event names that are not inherited from `Object.prototype` returns normally. -/
theorem invoke_safe {δ : Type} (env : Subscribers δ) (event : EventName) (data : δ)
    (c : Callback)
    (h : ∀ bus, (env c data bus).throws = none ∧
      ∀ a ∈ (env c data bus).actions, a.event ∉ objectPrototypeKeys)
    (st : Dispatch δ) : (invoke env event data st c).2 = none := by
  have h2 := runActions_safe event (env c data st.bus).actions
    ⟨st.bus, st.target, st.live, st.calls ++ [(c, data)]⟩ (h st.bus).2
  simp only [invoke]
  generalize runActions event ⟨st.bus, st.target, st.live, st.calls ++ [(c, data)]⟩
    (env c data st.bus).actions = r at h2
  obtain ⟨st1, f⟩ := r
  simp only at h2
  subst h2
  simp [(h st.bus).1]

theorem invoke_quiet {δ : Type} (env : Subscribers δ) (event : EventName) (data : δ)
    (st : Dispatch δ) (c : Callback) (h : Quiet env data c) :
    invoke env event data st c =
      (⟨st.bus, st.target, st.live, st.calls ++ [(c, data)]⟩, none) := by
  simp [invoke, h st.bus, runActions]

/-- Traversal of a stretch of quiet subscribers: each is invoked once, in
order, with the payload, and nothing else changes. -/
theorem forEachFrom_quiet {δ : Type} (env : Subscribers δ) (event : EventName) (data : δ)
    (todo : List Callback) :
    ∀ (done rest : List Callback) (n : Nat) (st : Dispatch δ),
      st.target = done ++ todo ++ rest → (∀ c ∈ todo, Quiet env data c) →
      forEachFrom env event data (todo.length + n) done.length st =
        forEachFrom env event data n (done.length + todo.length)
          ⟨st.bus, st.target, st.live, st.calls ++ todo.map (fun c => (c, data))⟩ := by
  induction todo with
  | nil => intro done rest n st _ _; simp
  | cons c tl ih =>
    intro done rest n st ht hq
    have hlen : (c :: tl).length + n = (tl.length + n) + 1 := by simp; omega
    have hk : st.target[done.length]? = some c := by
      rw [ht, List.append_assoc, List.cons_append]
      exact getElem?_length_append done (tl ++ rest) c
    rw [hlen, forEachFrom]
    simp only [hk, invoke_quiet env event data st c (hq c (by simp))]
    have := ih (done ++ [c]) rest n ⟨st.bus, st.target, st.live, st.calls ++ [(c, data)]⟩
      (by simp [ht]) (fun x hx => hq x (by simp [hx]))
    simp only [List.length_append, List.length_singleton] at this
    rw [this]
    simp [Nat.add_assoc, Nat.add_comm 1]

/-- A traversal only adds entries at the end of the traversed array. -/
theorem forEachFrom_target {δ : Type} (env : Subscribers δ) (event : EventName) (data : δ) :
    ∀ (n k : Nat) (st : Dispatch δ),
      ∃ ext, (forEachFrom env event data n k st).1.target = st.target ++ ext := by
  intro n
  induction n with
  | zero => intro k st; exact ⟨[], by simp [forEachFrom]⟩
  | succ n ih =>
    intro k st
    cases hk : st.target[k]? with
    | none =>
      obtain ⟨ext, he⟩ := ih (k + 1) st
      exact ⟨ext, by simpa only [forEachFrom, hk] using he⟩
    | some c =>
      obtain ⟨_, ext, htarget⟩ := invoke_frame env event data st c
      cases hinv : invoke env event data st c with
      | mk st1 f =>
        rw [hinv] at htarget
        simp only at htarget
        cases f with
        | some f => exact ⟨ext, by simpa only [forEachFrom, hk, hinv] using htarget⟩
        | none =>
          obtain ⟨ext2, he⟩ := ih (k + 1) st1
          refine ⟨ext ++ ext2, ?_⟩
          simp only [forEachFrom, hk, hinv]
          rw [he, htarget, List.append_assoc]

/-- The loop over `a + b` indices is the loop over the first `a` indices and,
when that returned, the loop over the next `b` from the state it reached. -/
theorem forEachFrom_add {δ : Type} (env : Subscribers δ) (event : EventName) (data : δ)
    (b : Nat) :
    ∀ (a k : Nat) (st : Dispatch δ), (forEachFrom env event data a k st).2 = none →
      forEachFrom env event data (a + b) k st =
        forEachFrom env event data b (k + a) (forEachFrom env event data a k st).1 := by
  intro a
  induction a with
  | zero => intro k st _; simp [forEachFrom]
  | succ a ih =>
    intro k st h
    have hlen : a + 1 + b = (a + b) + 1 := by omega
    have hidx : k + (a + 1) = (k + 1) + a := by omega
    rw [hlen, hidx]
    cases hk : st.target[k]? with
    | none =>
      simp only [forEachFrom, hk] at h ⊢
      exact ih (k + 1) st h
    | some c =>
      cases hinv : invoke env event data st c with
      | mk st1 f =>
        cases f with
        | some f => simp [forEachFrom, hk, hinv] at h
        | none =>
          simp only [forEachFrom, hk, hinv] at h ⊢
          exact ih (k + 1) st1 h

/-- Traversal with arbitrary subscribers: the subscribers invoked are an
initial stretch of the entries the array held when the traversal began, each
once, in order, with the payload; the stretch is the whole array unless a
fault ended the traversal, and a fault comes with at least one invocation. -/
theorem forEachFrom_general {δ : Type} (env : Subscribers δ) (event : EventName) (data : δ)
    (todo : List Callback) :
    ∀ (done rest : List Callback) (st : Dispatch δ), st.target = done ++ todo ++ rest →
      ∃ m, m ≤ todo.length ∧
        (forEachFrom env event data todo.length done.length st).1.calls =
          st.calls ++ (todo.take m).map (fun c => (c, data)) ∧
        ((forEachFrom env event data todo.length done.length st).2 = none →
          m = todo.length) ∧
        ((forEachFrom env event data todo.length done.length st).2 ≠ none → 0 < m) := by
  induction todo with
  | nil => intro done rest st _; exact ⟨0, by simp [forEachFrom]⟩
  | cons c tl ih =>
    intro done rest st ht
    have hk : st.target[done.length]? = some c := by
      rw [ht, List.append_assoc, List.cons_append]
      exact getElem?_length_append done (tl ++ rest) c
    have hfr := invoke_frame env event data st c
    cases hinv : invoke env event data st c with
    | mk st1 f =>
      rw [hinv] at hfr
      simp only at hfr
      obtain ⟨hcalls, ext, htarget⟩ := hfr
      cases f with
      | some f =>
        refine ⟨1, by simp, ?_, ?_, ?_⟩
        · simp [forEachFrom, hk, hinv, hcalls]
        · simp [forEachFrom, hk, hinv]
        · simp
      | none =>
        obtain ⟨m, hm, hc, hn, hs⟩ := ih (done ++ [c]) (rest ++ ext) st1
          (by simp [htarget, ht])
        simp only [List.length_append, List.length_singleton] at hc hn hs
        refine ⟨m + 1, by simp [hm], ?_, ?_, ?_⟩
        · simp [forEachFrom, hk, hinv, hc, hcalls]
        · intro h
          simp only [List.length_cons, forEachFrom, hk, hinv] at h
          simp [hn h]
        · simp

namespace PubSub

/-- Whatever the subscribers do, the invocation trace of `publish` is an initial
stretch of the event's sequence as it was when `publish` began, mapped to
`(callback, data)`; it is the whole sequence when no fault occurred. -/
theorem publish_calls_general {δ : Type} (env : Subscribers δ) (s : PubSub)
    (event : EventName) (data : δ) :
    ∃ m, m ≤ (s.seq event).length ∧
      (s.publish env event data).calls = ((s.seq event).take m).map (fun c => (c, data)) ∧
      ((s.publish env event data).fault = none → s.hasEntry event = true →
        m = (s.seq event).length) := by
  cases he : s.hasEntry event with
  | true =>
    obtain ⟨m, hm, hc, hn, _⟩ := forEachFrom_general env event data (s.seq event) [] []
      ⟨s, s.seq event, true, []⟩ (by simp)
    simp only [List.length_nil, List.nil_append] at hc hn
    refine ⟨m, hm, ?_, ?_⟩
    · simp only [publish, get_of_hasEntry s event he, Slot.truthy, hc]
      simp
    · intro hf _
      apply hn
      simpa only [publish, get_of_hasEntry s event he, Slot.truthy, Bool.not_true,
        Bool.false_eq_true, if_false] using hf
  | false =>
    refine ⟨0, Nat.zero_le _, ?_, by simp⟩
    by_cases hk : event ∈ objectPrototypeKeys <;>
      simp [publish, get_of_not_hasEntry s event he, hk, Slot.truthy]

/-- What a successful `subscribe` did. -/
theorem subscribe_ok_inv (s s1 : PubSub) (e : EventName) (c : Callback) (h : Handle)
    (hsub : s.subscribe e c = .ok (s1, h)) :
    s1 = s.set e (s.seq e ++ [c]) ∧ h = ⟨e, c⟩ := by
  by_cases hok : s.hasEntry e = true ∨ e ∉ objectPrototypeKeys
  · rw [subscribe_ok s e c hok] at hsub
    simp only [Except.ok.injEq, Prod.mk.injEq] at hsub
    exact ⟨hsub.1.symm, hsub.2.symm⟩
  · have he : s.hasEntry e = false := by
      cases hh : s.hasEntry e with
      | true => exact absurd (Or.inl hh) hok
      | false => rfl
    have hk : e ∈ objectPrototypeKeys := by
      by_contra hk
      exact hok (Or.inr hk)
    rw [subscribe_inherited s e c he hk] at hsub
    cases hsub

/-- Neither method removes a key. -/
theorem hasEntry_set_of_hasEntry (s : PubSub) (e e2 : EventName) (v : List Callback)
    (h : s.hasEntry e2 = true) : (s.set e v).hasEntry e2 = true := by
  by_cases hne : e2 = e
  · subst hne
    exact hasEntry_set_same s e2 v
  · rw [hasEntry_set_other s e e2 v hne]
    exact h

end PubSub

theorem subscribeEach_hasEntry (calls : List (EventName × Callback)) :
    ∀ (s s2 : PubSub) (e : EventName), subscribeEach s calls = .ok s2 →
      s.hasEntry e = true → s2.hasEntry e = true := by
  induction calls with
  | nil =>
    intro s s2 e h he
    simp only [subscribeEach, Except.ok.injEq] at h
    subst h
    exact he
  | cons p rest ih =>
    intro s s2 e h he
    obtain ⟨e1, c1⟩ := p
    unfold subscribeEach at h
    cases hs : s.subscribe e1 c1 with
    | error f => simp [hs] at h
    | ok r =>
      obtain ⟨s1, hd⟩ := r
      simp only [hs] at h
      obtain ⟨h1, _⟩ := PubSub.subscribe_ok_inv s s1 e1 c1 hd hs
      subst h1
      exact ih _ s2 e h (PubSub.hasEntry_set_of_hasEntry s e1 e _ he)

/-- With an entry and quiet subscribers, `publish` invokes the whole sequence
and leaves the bus as it was. -/
theorem publish_quiet {δ : Type} (env : Subscribers δ) (s : PubSub)
    (event : EventName) (data : δ) (hentry : s.hasEntry event = true)
    (hquiet : ∀ c ∈ s.seq event, Quiet env data c) :
    (s.publish env event data).calls = (s.seq event).map (fun c => (c, data)) ∧
      (s.publish env event data).fault = none ∧ (s.publish env event data).bus = s := by
  have h := forEachFrom_quiet env event data (s.seq event) [] [] 0
    ⟨s, s.seq event, true, []⟩ (by simp) hquiet
  simp only [List.length_nil, Nat.add_zero, Nat.zero_add, List.nil_append] at h
  simp only [PubSub.publish, PubSub.get_of_hasEntry s event hentry, Slot.truthy, h, forEachFrom]
  simp

theorem filter_bne_eq (l : List Callback) (callback : Callback) :
    l.filter (fun cb => cb != callback) = l.filter (fun cb => decide (cb ≠ callback)) := by
  congr 1
  funext cb
  by_cases hcb : cb = callback <;> simp [hcb]

/-- With an entry, `unsubscribe` returns, keeps the entry and stores the
filtered sequence. -/
theorem unsubscribe_stores_filter (s : PubSub) (event : EventName) (callback : Callback)
    (hentry : s.hasEntry event = true) :
    ∃ s1, s.unsubscribe event callback = .ok s1 ∧
      s1.seq event = (s.seq event).filter (fun cb => decide (cb ≠ callback)) ∧
      s1.hasEntry event = true :=
  ⟨_, PubSub.unsubscribe_of_hasEntry s event callback hentry,
    by rw [PubSub.seq_set_same, filter_bne_eq], PubSub.hasEntry_set_same s event _⟩

theorem not_mem_filter_ne (l : List Callback) (callback : Callback) :
    callback ∉ l.filter (fun cb => decide (cb ≠ callback)) := by
  simp [List.mem_filter]

/-! ## Histories of calls -/

/-- The effect of one call on the sequence of an event whose name is not
inherited from `Object.prototype`. -/
theorem applyCall_seq (s : PubSub) (a : Action) (e : EventName)
    (he : e ∉ objectPrototypeKeys) :
    (applyCall s a).seq e =
      match a with
      | .subscribe e1 c => if e1 = e then s.seq e ++ [c] else s.seq e
      | .unsubscribe e1 c =>
        if e1 = e then (s.seq e).filter (fun cb => decide (cb ≠ c)) else s.seq e := by
  cases a with
  | subscribe e1 c =>
    by_cases h1 : e1 = e
    · subst h1
      simp [applyCall, PubSub.subscribe_ok s e1 c (Or.inr he), PubSub.seq_set_same]
    · have hne : e ≠ e1 := fun h => h1 h.symm
      simp only [applyCall, h1, if_false]
      cases hs : s.subscribe e1 c with
      | error f => rfl
      | ok r =>
        obtain ⟨s1, hd⟩ := r
        obtain ⟨h2, _⟩ := PubSub.subscribe_ok_inv s s1 e1 c hd hs
        simp only [h2]
        exact PubSub.seq_set_other s e1 e _ hne
  | unsubscribe e1 c =>
    by_cases h1 : e1 = e
    · subst h1
      cases hent : s.hasEntry e1 with
      | true =>
        simp [applyCall, PubSub.unsubscribe_of_hasEntry s e1 c hent, PubSub.seq_set_same,
          filter_bne_eq]
      | false =>
        simp [applyCall, PubSub.unsubscribe_absent s e1 c hent he,
          PubSub.seq_of_not_hasEntry s e1 hent]
    · have hne : e ≠ e1 := fun h => h1 h.symm
      simp only [applyCall, h1, if_false]
      cases hent : s.hasEntry e1 with
      | true =>
        simp only [PubSub.unsubscribe_of_hasEntry s e1 c hent]
        exact PubSub.seq_set_other s e1 e _ hne
      | false =>
        by_cases hk : e1 ∈ objectPrototypeKeys
        · simp only [PubSub.unsubscribe_inherited s e1 c hent hk]
        · simp only [PubSub.unsubscribe_absent s e1 c hent hk]

/-- The reachable-state invariant from an arbitrary bus, for an event whose name
is not inherited from `Object.prototype`: the entries the bus had and that no
call of the history unsubscribes, followed by the surviving subscriptions of
the history. -/
theorem runFrom_seq (history : List Action) (e : EventName)
    (he : e ∉ objectPrototypeKeys) :
    ∀ s : PubSub, (runFrom s history).seq e =
      (s.seq e).filter (fun c => decide (Action.unsubscribe e c ∉ history)) ++
        survivors history e := by
  induction history with
  | nil => intro s; simp [runFrom, survivors]
  | cons a rest ih =>
    intro s
    have hstep : runFrom s (a :: rest) = runFrom (applyCall s a) rest := rfl
    rw [hstep, ih (applyCall s a), applyCall_seq s a e he]
    cases a with
    | subscribe e1 c =>
      by_cases h1 : e1 = e
      · subst h1
        by_cases h2 : Action.unsubscribe e1 c ∈ rest
        · simp [survivors, h2, List.filter_append, List.filter_cons]
        · simp [survivors, h2, List.filter_append, List.filter_cons]
      · simp [survivors, h1]
    | unsubscribe e1 c =>
      by_cases h1 : e1 = e
      · subst h1
        simp only [survivors, if_true, List.filter_filter]
        congr 2
        funext x
        by_cases hx : x = c
        · simp [hx]
        · have hx2 : ¬ c = x := fun h => hx h.symm
          simp [hx, hx2]
      · have h2 : ¬ e = e1 := fun h => h1 h.symm
        simp [survivors, h1, h2]

/-- The reachable-state invariant for every event whose name is not inherited
from `Object.prototype`. -/
theorem runHistory_seq (history : List Action) (e : EventName)
    (he : e ∉ objectPrototypeKeys) : (runHistory history).seq e = survivors history e := by
  rw [runHistory, runFrom_seq history e he]
  simp [PubSub.constructor, PubSub.seq, getOwn]

/-- Without an `unsubscribe(e, c)` in the history, the surviving entries of `c`
are its `subscribe(e, c)` calls, one entry per call. -/
theorem survivors_count (history : List Action) (e : EventName) (c : Callback)
    (h : Action.unsubscribe e c ∉ history) :
    (survivors history e).count c = history.count (Action.subscribe e c) := by
  induction history with
  | nil => simp [survivors]
  | cons a rest ih =>
    have hrest : Action.unsubscribe e c ∉ rest := fun hm => h (List.mem_cons_of_mem _ hm)
    cases a with
    | subscribe e1 c1 =>
      by_cases h1 : e1 = e
      · subst h1
        by_cases h2 : c1 = c
        · subst h2
          simp [survivors, hrest, ih hrest]
        · by_cases h3 : Action.unsubscribe e1 c1 ∈ rest
          · simp [survivors, h3, ih hrest, List.count_cons, h2]
          · simp [survivors, h3, ih hrest, List.count_cons, h2]
      · simp [survivors, h1, ih hrest, List.count_cons]
    | unsubscribe e1 c1 =>
      simp [survivors, ih hrest, List.count_cons]

/-- No reachable bus has an own entry under a name inherited from
`Object.prototype`: the one method that creates entries faults on such a name. -/
theorem runFrom_no_inherited_entry (history : List Action) :
    ∀ s : PubSub, (∀ e ∈ objectPrototypeKeys, s.hasEntry e = false) →
      ∀ e ∈ objectPrototypeKeys, (runFrom s history).hasEntry e = false := by
  induction history with
  | nil => intro s h; exact h
  | cons a rest ih =>
    intro s h
    have hstep : runFrom s (a :: rest) = runFrom (applyCall s a) rest := rfl
    rw [hstep]
    apply ih
    intro e hk
    cases a with
    | subscribe e1 c =>
      simp only [applyCall]
      cases hs : s.subscribe e1 c with
      | error f => exact h e hk
      | ok r =>
        obtain ⟨s1, hd⟩ := r
        obtain ⟨h2, _⟩ := PubSub.subscribe_ok_inv s s1 e1 c hd hs
        have hne : e ≠ e1 := by
          intro heq
          subst heq
          rw [PubSub.subscribe_inherited s e c (h e hk) hk] at hs
          cases hs
        simp only [h2]
        rw [PubSub.hasEntry_set_other s e1 e _ hne]
        exact h e hk
    | unsubscribe e1 c =>
      simp only [applyCall]
      cases hent : s.hasEntry e1 with
      | true =>
        have hne : e ≠ e1 := by
          intro heq
          subst heq
          rw [h e hk] at hent
          cases hent
        simp only [PubSub.unsubscribe_of_hasEntry s e1 c hent]
        rw [PubSub.hasEntry_set_other s e1 e _ hne]
        exact h e hk
      | false =>
        by_cases hk1 : e1 ∈ objectPrototypeKeys
        · simp only [PubSub.unsubscribe_inherited s e1 c hent hk1]
          exact h e hk
        · simp only [PubSub.unsubscribe_absent s e1 c hent hk1]
          exact h e hk

/-! ## The claims -/

/-- C1: when the event has a registry entry and no subscriber of its sequence
faults or touches the bus, `publish(event, data)` invokes exactly the entries
of the sequence, once per entry, in the order of the sequence, each with
`data` itself: the invocation trace is the sequence mapped to
`(callback, data)`, and `publish` returns normally. -/
theorem publish_trace_eq_seq {δ : Type} (env : Subscribers δ) (s : PubSub)
    (event : EventName) (data : δ) (hentry : s.hasEntry event = true)
    (hquiet : ∀ c ∈ s.seq event, Quiet env data c) :
    (s.publish env event data).calls = (s.seq event).map (fun c => (c, data)) ∧
      (s.publish env event data).fault = none := by
  obtain ⟨h1, h2, _⟩ := publish_quiet env s event data hentry hquiet
  exact ⟨h1, h2⟩

/-- C1, on the bus `iphone13 ↦ [0, 1, 0]`: the callback registered twice is
invoked twice. -/
theorem publish_trace_eq_seq_witness :
    (PubSub.publish (logOnly : Subscribers Nat) ⟨[("iphone13", [0, 1, 0])]⟩ "iphone13" 7).calls
        = [(0, 7), (1, 7), (0, 7)] ∧
      (PubSub.publish (logOnly : Subscribers Nat) ⟨[("iphone13", [0, 1, 0])]⟩ "iphone13" 7).fault
        = none :=
  publish_trace_eq_seq logOnly ⟨[("iphone13", [0, 1, 0])]⟩ "iphone13" 7 (by decide)
    (fun _ _ _ => rfl)

/-- C2 fails on the code: it is not the case that, for every bus, event and
callback, `subscribe` returns with the callback appended to the event's
sequence. On a new bus `subscribe('constructor', cb)` finds the inherited
`Object.prototype.constructor`, creates no array and faults on `.push`. -/
theorem subscribe_append_fails_on_inherited_name :
    ¬ ∀ (s : PubSub) (event : EventName) (callback : Callback),
        ∃ s1 h, s.subscribe event callback = .ok (s1, h) ∧
          s1.seq event = s.seq event ++ [callback] := by
  intro h
  obtain ⟨s1, hd, heq, _⟩ := h PubSub.constructor "constructor" 0
  have hf : PubSub.constructor.subscribe "constructor" 0 = .error .typeError := by decide
  rw [hf] at heq
  cases heq

/-- C3: when `event` has an entry, `unsubscribe(event, callback)` returns and
the event's new sequence is the old one filtered by `cb !== callback`: every
occurrence of `callback` is gone, every other entry is kept with its
multiplicity and in its relative order. -/
theorem unsubscribe_seq_eq_filter (s : PubSub) (event : EventName) (callback : Callback)
    (hentry : s.hasEntry event = true) :
    ∃ s1, s.unsubscribe event callback = .ok s1 ∧
      s1.seq event = (s.seq event).filter (fun cb => decide (cb ≠ callback)) ∧
      callback ∉ s1.seq event ∧
      (∀ cb, cb ≠ callback → (s1.seq event).count cb = (s.seq event).count cb) ∧
      (s1.seq event).Sublist (s.seq event) := by
  obtain ⟨s1, hun, hseq, _⟩ := unsubscribe_stores_filter s event callback hentry
  refine ⟨s1, hun, hseq, ?_, ?_, ?_⟩
  · rw [hseq]
    exact not_mem_filter_ne _ callback
  · intro cb hne
    rw [hseq]
    exact List.count_filter (by simpa using hne)
  · rw [hseq]
    exact List.filter_sublist _

/-- C3, on the bus `iphone13 ↦ [0, 1, 0, 2]` with callback `0`. -/
theorem unsubscribe_seq_eq_filter_witness :
    ∃ s1, (⟨[("iphone13", [0, 1, 0, 2])]⟩ : PubSub).unsubscribe "iphone13" 0 = .ok s1 ∧
      s1.seq "iphone13" =
        ((⟨[("iphone13", [0, 1, 0, 2])]⟩ : PubSub).seq "iphone13").filter
          (fun cb => decide (cb ≠ 0)) ∧
      0 ∉ s1.seq "iphone13" ∧
      (∀ cb, cb ≠ 0 → (s1.seq "iphone13").count cb =
        ((⟨[("iphone13", [0, 1, 0, 2])]⟩ : PubSub).seq "iphone13").count cb) ∧
      (s1.seq "iphone13").Sublist ((⟨[("iphone13", [0, 1, 0, 2])]⟩ : PubSub).seq "iphone13") :=
  unsubscribe_seq_eq_filter ⟨[("iphone13", [0, 1, 0, 2])]⟩ "iphone13" 0 (by decide)

/-- C4: the handle returned by `subscribe(event, callback)` is equivalent to
`unsubscribe(event, callback)`: in whatever state the bus is when the handle
is invoked, it yields the same registry, or the same fault. -/
theorem handle_invoke_eq_unsubscribe (s s1 : PubSub) (event : EventName)
    (callback : Callback) (h : Handle)
    (hsub : s.subscribe event callback = .ok (s1, h)) (t : PubSub) :
    h.invoke t = t.unsubscribe event callback := by
  have hh : h = ⟨event, callback⟩ := by
    simp only [PubSub.subscribe] at hsub
    generalize (if !(s.get event).truthy then s.set event [] else s) = self1 at hsub
    cases hg : self1.get event <;> simp [hg] at hsub
    exact hsub.2.symm
  subst hh
  rfl

/-- C4, for the first handle of the demo script, invoked on a later bus. -/
theorem handle_invoke_eq_unsubscribe_witness :
    PubSub.constructor.subscribe "iphone13" 0 = .ok (⟨[("iphone13", [0])]⟩, ⟨"iphone13", 0⟩) ∧
      (⟨"iphone13", 0⟩ : Handle).invoke ⟨[("iphone13", [0, 1]), ("iphone15", [0])]⟩ =
        (⟨[("iphone13", [0, 1]), ("iphone15", [0])]⟩ : PubSub).unsubscribe "iphone13" 0 :=
  ⟨by decide, handle_invoke_eq_unsubscribe PubSub.constructor ⟨[("iphone13", [0])]⟩ "iphone13" 0
    ⟨"iphone13", 0⟩ (by decide) ⟨[("iphone13", [0, 1]), ("iphone15", [0])]⟩⟩

/-- C5: after `subscribe(event, callback)`, any further subscriptions, and a
call of the returned handle, the handle has returned normally, `callback` no
longer occurs in the event's sequence, and the other entries are kept in
order; a later `publish(event, data)` does not invoke `callback`, whatever the
subscribers do, and with subscribers that neither fault nor touch the bus it
invokes every other subscriber of the event, in order. -/
theorem handle_unsubscribes_callback {δ : Type} (env : Subscribers δ) (s s1 s2 : PubSub)
    (event : EventName) (callback : Callback) (h : Handle)
    (later : List (EventName × Callback)) (data : δ)
    (hsub : s.subscribe event callback = .ok (s1, h))
    (hlater : subscribeEach s1 later = .ok s2) :
    ∃ s3, h.invoke s2 = .ok s3 ∧
      callback ∉ s3.seq event ∧
      s3.seq event = (s2.seq event).filter (fun cb => decide (cb ≠ callback)) ∧
      (∀ x ∈ (s3.publish env event data).calls, x.1 ≠ callback) ∧
      ((∀ c ∈ s3.seq event, Quiet env data c) →
        (s3.publish env event data).calls =
          ((s2.seq event).filter (fun cb => decide (cb ≠ callback))).map
            (fun c => (c, data))) := by
  obtain ⟨hs1, hh⟩ := PubSub.subscribe_ok_inv s s1 event callback h hsub
  have he1 : s1.hasEntry event = true := by
    rw [hs1]
    exact PubSub.hasEntry_set_same s event _
  have he2 : s2.hasEntry event = true := subscribeEach_hasEntry later s1 s2 event hlater he1
  obtain ⟨s3, hun, hseq, he3⟩ := unsubscribe_stores_filter s2 event callback he2
  have hnot : callback ∉ s3.seq event := by
    rw [hseq]
    exact not_mem_filter_ne _ callback
  refine ⟨s3, ?_, hnot, hseq, ?_, ?_⟩
  · rw [hh]
    exact hun
  · intro x hx
    obtain ⟨m, _, hc, _⟩ := PubSub.publish_calls_general env s3 event data
    rw [hc] at hx
    obtain ⟨c, hcm, hcx⟩ := List.mem_map.mp hx
    intro hxc
    apply hnot
    rw [← hxc, ← hcx]
    exact List.mem_of_mem_take hcm
  · intro hq
    rw [← hseq]
    exact (publish_quiet env s3 event data he3 hq).1

/-- C5, on the demo script: A (`0`) and B (`1`) subscribe to `iphone13`, A's
handle is called, and `publish` reaches only B. -/
theorem handle_unsubscribes_callback_witness :
    PubSub.constructor.subscribe "iphone13" 0 = .ok (⟨[("iphone13", [0])]⟩, ⟨"iphone13", 0⟩) ∧
    subscribeEach ⟨[("iphone13", [0])]⟩ [("iphone13", 1), ("iphone15", 2)] =
      .ok ⟨[("iphone13", [0, 1]), ("iphone15", [2])]⟩ ∧
    ∃ s3, (⟨"iphone13", 0⟩ : Handle).invoke ⟨[("iphone13", [0, 1]), ("iphone15", [2])]⟩
        = .ok s3 ∧
      0 ∉ s3.seq "iphone13" ∧
      s3.seq "iphone13" =
        ((⟨[("iphone13", [0, 1]), ("iphone15", [2])]⟩ : PubSub).seq "iphone13").filter
          (fun cb => decide (cb ≠ 0)) ∧
      (∀ x ∈ (s3.publish (logOnly : Subscribers Nat) "iphone13" 1000).calls, x.1 ≠ 0) ∧
      ((∀ c ∈ s3.seq "iphone13", Quiet (logOnly : Subscribers Nat) 1000 c) →
        (s3.publish (logOnly : Subscribers Nat) "iphone13" 1000).calls =
          (((⟨[("iphone13", [0, 1]), ("iphone15", [2])]⟩ : PubSub).seq "iphone13").filter
            (fun cb => decide (cb ≠ 0))).map (fun c => (c, 1000))) :=
  ⟨by decide, by decide,
    handle_unsubscribes_callback logOnly PubSub.constructor ⟨[("iphone13", [0])]⟩
      ⟨[("iphone13", [0, 1]), ("iphone15", [2])]⟩ "iphone13" 0 ⟨"iphone13", 0⟩
      [("iphone13", 1), ("iphone15", 2)] 1000 (by decide) (by decide)⟩

/-- C6, no cross-talk: whatever the subscribers do, `publish(e1, data)` invokes
only callbacks that occur in the sequence of `e1`, each with `data`; a callback
registered under another event `e2` and not under `e1` is not invoked. -/
theorem publish_no_cross_talk {δ : Type} (env : Subscribers δ) (s : PubSub)
    (e1 : EventName) (data : δ) :
    (∀ x ∈ (s.publish env e1 data).calls, x.1 ∈ s.seq e1 ∧ x.2 = data) ∧
      ∀ (e2 : EventName) (c : Callback), e1 ≠ e2 → c ∈ s.seq e2 → c ∉ s.seq e1 →
        ∀ d, (c, d) ∉ (s.publish env e1 data).calls := by
  have hall : ∀ x ∈ (s.publish env e1 data).calls, x.1 ∈ s.seq e1 ∧ x.2 = data := by
    intro x hx
    obtain ⟨m, _, hc, _⟩ := PubSub.publish_calls_general env s e1 data
    rw [hc] at hx
    obtain ⟨y, hym, hyx⟩ := List.mem_map.mp hx
    subst hyx
    exact ⟨List.mem_of_mem_take hym, rfl⟩
  exact ⟨hall, fun _ c _ _ hc1 d hd => hc1 (hall (c, d) hd).1⟩

/-- C6, on the demo script: publishing `iphone15` reaches its one subscriber
(`2`) and not subscriber B (`1`) of `iphone13`. -/
theorem publish_no_cross_talk_witness :
    (PubSub.publish (logOnly : Subscribers Nat)
        ⟨[("iphone13", [0, 1]), ("iphone15", [2])]⟩ "iphone15" 1500).calls = [(2, 1500)] ∧
    ∀ d, (1, d) ∉ (PubSub.publish (logOnly : Subscribers Nat)
        ⟨[("iphone13", [0, 1]), ("iphone15", [2])]⟩ "iphone15" 1500).calls :=
  ⟨by decide,
    (publish_no_cross_talk logOnly ⟨[("iphone13", [0, 1]), ("iphone15", [2])]⟩
      "iphone15" 1500).2 "iphone13" 1 (by decide) (by decide) (by decide)⟩

/-- C7 as stated fails: it is not the case that, after subscribing one callback
twice, invoking the first handle leaves one of the two entries in place. On a
new bus, two calls `subscribe('iphone13', cb)` and then the first handle leave
no entry of `cb`. -/
theorem first_handle_keeps_no_entry :
    ¬ ∀ (s s1 s2 s3 : PubSub) (e : EventName) (cb : Callback) (h1 h2 : Handle),
        s.subscribe e cb = .ok (s1, h1) → s1.subscribe e cb = .ok (s2, h2) →
        h1.invoke s2 = .ok s3 → (s3.seq e).count cb = (s.seq e).count cb + 1 := by
  intro h
  have := h PubSub.constructor ⟨[("iphone13", [0])]⟩ ⟨[("iphone13", [0, 0])]⟩ ⟨[("iphone13", [])]⟩
    "iphone13" 0 ⟨"iphone13", 0⟩ ⟨"iphone13", 0⟩ (by decide) (by decide) (by decide)
  revert this
  decide

/-- C7 as amended: subscribing the same callback twice for the same event
appends two entries, but the two handles are the same filter: invoking either
one removes every entry of the callback under the event, the two new ones and
any older one, and keeps the other subscribers in order; the callback then
occurs zero times and a later `publish` does not invoke it. -/
theorem either_handle_removes_every_entry {δ : Type} (env : Subscribers δ)
    (s s1 s2 : PubSub) (e : EventName) (cb : Callback) (h1 h2 : Handle) (data : δ)
    (hs1 : s.subscribe e cb = .ok (s1, h1)) (hs2 : s1.subscribe e cb = .ok (s2, h2)) :
    s2.seq e = s.seq e ++ [cb, cb] ∧
      ∃ s3, h1.invoke s2 = .ok s3 ∧ h2.invoke s2 = .ok s3 ∧
        s3.seq e = (s.seq e).filter (fun x => decide (x ≠ cb)) ∧
        (s3.seq e).count cb = 0 ∧
        ∀ x ∈ (s3.publish env e data).calls, x.1 ≠ cb := by
  obtain ⟨e1, hh1⟩ := PubSub.subscribe_ok_inv s s1 e cb h1 hs1
  obtain ⟨e2, hh2⟩ := PubSub.subscribe_ok_inv s1 s2 e cb h2 hs2
  have hseq1 : s1.seq e = s.seq e ++ [cb] := by rw [e1, PubSub.seq_set_same]
  have hseq2 : s2.seq e = s.seq e ++ [cb, cb] := by
    rw [e2, PubSub.seq_set_same, hseq1]
    simp
  have he2 : s2.hasEntry e = true := by
    rw [e2]
    exact PubSub.hasEntry_set_same s1 e _
  obtain ⟨s3, hun, hseq3, _⟩ := unsubscribe_stores_filter s2 e cb he2
  have hnot : cb ∉ s3.seq e := by
    rw [hseq3]
    exact not_mem_filter_ne _ cb
  have hseq3b : s3.seq e = (s.seq e).filter (fun x => decide (x ≠ cb)) := by
    rw [hseq3, hseq2]
    simp
  refine ⟨hseq2, s3, by rw [hh1]; exact hun, by rw [hh2]; exact hun, hseq3b,
    List.count_eq_zero.mpr hnot, ?_⟩
  intro x hx
  obtain ⟨m, _, hc, _⟩ := PubSub.publish_calls_general env s3 e data
  rw [hc] at hx
  obtain ⟨c, hcm, hcx⟩ := List.mem_map.mp hx
  intro hxc
  apply hnot
  rw [← hxc, ← hcx]
  exact List.mem_of_mem_take hcm

/-- C7 as amended, on a bus where the callback `0` already had an entry next to
subscriber `1`: after two more subscriptions of `0`, one handle leaves `[1]`. -/
theorem either_handle_removes_every_entry_witness :
    (⟨[("iphone13", [0, 1])]⟩ : PubSub).subscribe "iphone13" 0 =
      .ok (⟨[("iphone13", [0, 1, 0])]⟩, ⟨"iphone13", 0⟩) ∧
    (⟨[("iphone13", [0, 1, 0])]⟩ : PubSub).subscribe "iphone13" 0 =
      .ok (⟨[("iphone13", [0, 1, 0, 0])]⟩, ⟨"iphone13", 0⟩) ∧
    ((⟨[("iphone13", [0, 1, 0, 0])]⟩ : PubSub).seq "iphone13" =
        (⟨[("iphone13", [0, 1])]⟩ : PubSub).seq "iphone13" ++ [0, 0] ∧
      ∃ s3, (⟨"iphone13", 0⟩ : Handle).invoke ⟨[("iphone13", [0, 1, 0, 0])]⟩ = .ok s3 ∧
        (⟨"iphone13", 0⟩ : Handle).invoke ⟨[("iphone13", [0, 1, 0, 0])]⟩ = .ok s3 ∧
        s3.seq "iphone13" = ((⟨[("iphone13", [0, 1])]⟩ : PubSub).seq "iphone13").filter
          (fun x => decide (x ≠ 0)) ∧
        (s3.seq "iphone13").count 0 = 0 ∧
        ∀ x ∈ (s3.publish (logOnly : Subscribers Nat) "iphone13" 1000).calls, x.1 ≠ 0) :=
  ⟨by decide, by decide,
    either_handle_removes_every_entry logOnly ⟨[("iphone13", [0, 1])]⟩
      ⟨[("iphone13", [0, 1, 0])]⟩ ⟨[("iphone13", [0, 1, 0, 0])]⟩ "iphone13" 0
      ⟨"iphone13", 0⟩ ⟨"iphone13", 0⟩ 1000 (by decide) (by decide)⟩

/-- C8 fails on the code: it is not the case that, after every history of
calls on a new bus, the sequence stored for every event is the list of its
surviving subscriptions. After the one call `subscribe('toString', cb)` the
event `toString` has one subscription and no stored entry: the call faulted on
the inherited `Object.prototype.toString`. -/
theorem history_invariant_fails_on_inherited_name :
    ¬ ∀ (history : List Action) (e : EventName),
        (runHistory history).seq e = survivors history e := by
  intro h
  have := h [Action.subscribe "toString" 0] "toString"
  revert this
  decide

/-- C9, fail-fast dispatch: when the event's sequence is `pre ++ c :: post`,
the run of `publish(event, data)` over the entries of `pre` ends without a
fault, and `c`, invoked in the state that run has reached, faults with `f`
(a value it throws, or the `TypeError` of a call it makes on the bus), then
`publish` fails with `f`, and the subscribers invoked are exactly `pre` and
then `c`, each once, in order, with `data`; none of `post` is invoked. -/
theorem publish_fail_fast {δ : Type} (env : Subscribers δ) (s : PubSub) (event : EventName)
    (data : δ) (pre post : List Callback) (c : Callback) (f : Fault)
    (hseq : s.seq event = pre ++ c :: post)
    (hpre : (forEachFrom env event data pre.length 0 ⟨s, s.seq event, true, []⟩).2 = none)
    (hc : (invoke env event data
      (forEachFrom env event data pre.length 0 ⟨s, s.seq event, true, []⟩).1 c).2 = some f) :
    (s.publish env event data).fault = some f ∧
      (s.publish env event data).calls = (pre ++ [c]).map (fun x => (x, data)) := by
  have hentry : s.hasEntry event = true := by
    cases he : s.hasEntry event with
    | true => rfl
    | false =>
      rw [PubSub.seq_of_not_hasEntry s event he] at hseq
      simp at hseq
  have hlen : (s.seq event).length = pre.length + (post.length + 1) := by simp [hseq]
  have hsplit := forEachFrom_add env event data (post.length + 1) pre.length 0
    ⟨s, s.seq event, true, []⟩ hpre
  obtain ⟨m, hm, hcalls, hall, _⟩ := forEachFrom_general env event data pre [] (c :: post)
    ⟨s, s.seq event, true, []⟩ (by simp [hseq])
  obtain ⟨ext, htarget⟩ := forEachFrom_target env event data pre.length 0
    ⟨s, s.seq event, true, []⟩
  simp only [List.length_nil, Nat.zero_add, List.nil_append] at hsplit hcalls hall htarget
  have hm2 : m = pre.length := hall hpre
  subst hm2
  rw [List.take_length] at hcalls
  generalize forEachFrom env event data pre.length 0 ⟨s, s.seq event, true, []⟩ = r
    at hsplit hcalls htarget hc
  obtain ⟨stk, g⟩ := r
  simp only at hsplit hcalls htarget hc
  have hk : stk.target[pre.length]? = some c := by
    rw [htarget, hseq, List.append_assoc, List.cons_append]
    exact getElem?_length_append pre (post ++ ext) c
  have hfr := invoke_frame env event data stk c
  cases hinv : invoke env event data stk c with
  | mk st2 g2 =>
    rw [hinv] at hfr hc
    simp only at hfr hc
    subst hc
    simp only [PubSub.publish, PubSub.get_of_hasEntry s event hentry, Slot.truthy, hlen, hsplit,
      forEachFrom, hk, hinv]
    simp [hfr.1, hcalls]

/-- C9, on three runs. On `iphone13 ↦ [0, 1, 2]` subscriber `1` throws `42`:
`0` and `1` are invoked, `2` is not. On `iphone13 ↦ [1, 0, 2]` subscriber `0`
calls `subscribe('toString', f)`, which faults: `publish` fails with that
`TypeError` after `1` and `0`. On `iphone13 ↦ [0, 1, 0, 2]` subscriber `0`
returns the first time and throws the second: `0`, `1`, `0` are invoked. -/
theorem publish_fail_fast_witness :
    ((PubSub.publish (throwing 1 42 : Subscribers Nat) ⟨[("iphone13", [0, 1, 2])]⟩
        "iphone13" 1000).fault = some (.thrown 42) ∧
      (PubSub.publish (throwing 1 42 : Subscribers Nat) ⟨[("iphone13", [0, 1, 2])]⟩
        "iphone13" 1000).calls = ([0] ++ [1]).map (fun x => (x, 1000))) ∧
    ((PubSub.publish (prying : Subscribers Nat) ⟨[("iphone13", [1, 0, 2])]⟩
        "iphone13" 1000).fault = some .typeError ∧
      (PubSub.publish (prying : Subscribers Nat) ⟨[("iphone13", [1, 0, 2])]⟩
        "iphone13" 1000).calls = ([1] ++ [0]).map (fun x => (x, 1000))) ∧
    ((PubSub.publish (onceOnly : Subscribers Nat) ⟨[("iphone13", [0, 1, 0, 2])]⟩
        "iphone13" 1000).fault = some (.thrown 42) ∧
      (PubSub.publish (onceOnly : Subscribers Nat) ⟨[("iphone13", [0, 1, 0, 2])]⟩
        "iphone13" 1000).calls = ([0, 1] ++ [0]).map (fun x => (x, 1000))) :=
  ⟨publish_fail_fast (throwing 1 42) ⟨[("iphone13", [0, 1, 2])]⟩ "iphone13" 1000 [0] [2] 1
      (.thrown 42) (by decide) (by decide) (by decide),
    publish_fail_fast prying ⟨[("iphone13", [1, 0, 2])]⟩ "iphone13" 1000 [1] [2] 0
      .typeError (by decide) (by decide) (by decide),
    publish_fail_fast onceOnly ⟨[("iphone13", [0, 1, 0, 2])]⟩ "iphone13" 1000 [0, 1] [2] 0
      (.thrown 42) (by decide) (by decide) (by decide)⟩

/-- C10 fails on the code: on every reachable bus, `subscribe` with an event
name inherited from `Object.prototype` (`constructor`, `toString`, ...) faults
with a `TypeError` and registers nothing: the lookup finds the inherited
property, no array is created, and `.push` is not a function. -/
theorem subscribe_inherited_name_faults (history : List Action) (event : EventName)
    (callback : Callback) (hk : event ∈ objectPrototypeKeys) :
    (runHistory history).subscribe event callback = .error .typeError ∧
      (runHistory history).seq event = [] := by
  have he : (runHistory history).hasEntry event = false :=
    runFrom_no_inherited_entry history PubSub.constructor (fun _ _ => rfl) event hk
  exact ⟨PubSub.subscribe_inherited _ event callback he hk,
    PubSub.seq_of_not_hasEntry _ event he⟩

/-- C10, after the three subscriptions of the demo script:
`subscribe('constructor', cb)` faults. -/
theorem subscribe_inherited_name_faults_witness :
    "constructor" ∈ objectPrototypeKeys ∧
      (runHistory [.subscribe "iphone13" 0, .subscribe "iphone13" 1,
          .subscribe "iphone15" 2]).subscribe "constructor" 3 = .error .typeError ∧
      (runHistory [.subscribe "iphone13" 0, .subscribe "iphone13" 1,
          .subscribe "iphone15" 2]).seq "constructor" = [] :=
  ⟨by decide, subscribe_inherited_name_faults
    [.subscribe "iphone13" 0, .subscribe "iphone13" 1, .subscribe "iphone15" 2]
    "constructor" 3 (by decide)⟩

/-! ## Calls on absent events and subscribers -/

namespace PubSub

theorem getOwn_of_hasEntry (s : PubSub) (e : EventName) (h : s.hasEntry e = true) :
    getOwn s.subscribers e = some (s.seq e) := by
  unfold hasEntry at h
  unfold seq
  cases hg : getOwn s.subscribers e with
  | none => simp [hg] at h
  | some cbs => simp

/-- Storing the sequence an event already has changes nothing. -/
theorem set_seq_self (s : PubSub) (e : EventName) (h : s.hasEntry e = true) :
    s.set e (s.seq e) = s := by
  cases s with
  | mk l =>
    simp only [set]
    rw [setOwn_of_getOwn l e _ (getOwn_of_hasEntry ⟨l⟩ e h)]

/-- With no entry and a name that is not inherited, or with an entry whose
sequence is empty, `publish` returns at once: no fault, no invocation, the bus
as it was, whatever the subscribers are. -/
theorem publish_no_subscribers {δ : Type} (env : Subscribers δ) (s : PubSub)
    (e : EventName) (data : δ)
    (h : (s.hasEntry e = false ∧ e ∉ objectPrototypeKeys) ∨
      (s.hasEntry e = true ∧ s.seq e = [])) :
    (s.publish env e data).fault = none ∧ (s.publish env e data).calls = [] ∧
      (s.publish env e data).bus = s := by
  rcases h with ⟨he, hk⟩ | ⟨he, hs⟩
  · simp [publish, get_of_not_hasEntry s e he, hk, Slot.truthy]
  · simp [publish, get_of_hasEntry s e he, hs, Slot.truthy, forEachFrom]

/-- With no entry and a name that is not inherited, or with an entry that does
not hold the callback, `unsubscribe` returns and the bus is as it was. -/
theorem unsubscribe_absent_noop (s : PubSub) (e : EventName) (c : Callback)
    (h : (s.hasEntry e = false ∧ e ∉ objectPrototypeKeys) ∨
      (s.hasEntry e = true ∧ c ∉ s.seq e)) :
    s.unsubscribe e c = .ok s := by
  rcases h with ⟨he, hk⟩ | ⟨he, hc⟩
  · exact unsubscribe_absent s e c he hk
  · rw [unsubscribe_of_hasEntry s e c he]
    have hf : (s.seq e).filter (fun cb => cb != c) = s.seq e := by
      rw [List.filter_eq_self]
      intro a ha
      have : a ≠ c := fun hac => hc (hac ▸ ha)
      simpa using this
    rw [hf, set_seq_self s e he]

/-- Once `unsubscribe` has returned, calling it again returns the same bus. -/
theorem unsubscribe_idempotent (s s1 : PubSub) (e : EventName) (c : Callback)
    (h : s.unsubscribe e c = .ok s1) : s1.unsubscribe e c = .ok s1 := by
  cases he : s.hasEntry e with
  | true =>
    rw [unsubscribe_of_hasEntry s e c he] at h
    simp only [Except.ok.injEq] at h
    subst h
    rw [unsubscribe_of_hasEntry _ e c (hasEntry_set_same s e _), seq_set_same]
    simp [set, setOwn_setOwn]
  | false =>
    by_cases hk : e ∈ objectPrototypeKeys
    · rw [unsubscribe_inherited s e c he hk] at h
      cases h
    · rw [unsubscribe_absent s e c he hk] at h
      simp only [Except.ok.injEq] at h
      subst h
      exact unsubscribe_absent s e c he hk

end PubSub

/-- C11 fails on the code: on every reachable bus, `publish` with an event name
inherited from `Object.prototype` (never subscribed to, no registry entry)
does not return normally: the lookup finds the inherited property, the guard
does not return, and `.forEach` is not a function. No callback is invoked. -/
theorem publish_inherited_name_faults {δ : Type} (env : Subscribers δ)
    (history : List Action) (event : EventName) (data : δ)
    (hk : event ∈ objectPrototypeKeys) :
    (runHistory history).hasEntry event = false ∧
      ((runHistory history).publish env event data).fault = some .typeError ∧
      ((runHistory history).publish env event data).calls = [] := by
  have he : (runHistory history).hasEntry event = false :=
    runFrom_no_inherited_entry history PubSub.constructor (fun _ _ => rfl) event hk
  refine ⟨he, ?_, ?_⟩ <;>
    simp [PubSub.publish, PubSub.get_of_not_hasEntry _ event he, hk, Slot.truthy]

/-- C11, on a new bus: `publish('toString', data)` faults. -/
theorem publish_inherited_name_faults_witness :
    "toString" ∈ objectPrototypeKeys ∧
      (runHistory []).hasEntry "toString" = false ∧
      ((runHistory []).publish (logOnly : Subscribers Nat) "toString" 7).fault
        = some .typeError ∧
      ((runHistory []).publish (logOnly : Subscribers Nat) "toString" 7).calls = [] :=
  ⟨by decide, publish_inherited_name_faults logOnly [] "toString" 7 (by decide)⟩

/-- C12 fails on the code: on every reachable bus, `unsubscribe` with an event
name inherited from `Object.prototype` (an event with no registry entry) is
not a silent no-op: the lookup finds the inherited property, the guard does
not return, and `.filter` is not a function. -/
theorem unsubscribe_inherited_name_faults (history : List Action) (event : EventName)
    (callback : Callback) (hk : event ∈ objectPrototypeKeys) :
    (runHistory history).hasEntry event = false ∧
      (runHistory history).unsubscribe event callback = .error .typeError := by
  have he : (runHistory history).hasEntry event = false :=
    runFrom_no_inherited_entry history PubSub.constructor (fun _ _ => rfl) event hk
  exact ⟨he, PubSub.unsubscribe_inherited _ event callback he hk⟩

/-- C12, after the three subscriptions of the demo script:
`unsubscribe('valueOf', cb)` faults. -/
theorem unsubscribe_inherited_name_faults_witness :
    "valueOf" ∈ objectPrototypeKeys ∧
      (runHistory [.subscribe "iphone13" 0, .subscribe "iphone13" 1,
          .subscribe "iphone15" 2]).hasEntry "valueOf" = false ∧
      (runHistory [.subscribe "iphone13" 0, .subscribe "iphone13" 1,
          .subscribe "iphone15" 2]).unsubscribe "valueOf" 0 = .error .typeError :=
  ⟨by decide, unsubscribe_inherited_name_faults
    [.subscribe "iphone13" 0, .subscribe "iphone13" 1, .subscribe "iphone15" 2]
    "valueOf" 0 (by decide)⟩

/-- C13 fails on the code: it is not the case that, for every bus, event and
callback, `unsubscribe` applied twice returns both times, with the registry
of the first application. On a new bus `unsubscribe('hasOwnProperty', cb)`
faults, the first time and the second. -/
theorem unsubscribe_twice_faults_on_inherited_name :
    ¬ ∀ (s : PubSub) (event : EventName) (callback : Callback),
        ∃ s1, s.unsubscribe event callback = .ok s1 ∧
          s1.unsubscribe event callback = .ok s1 := by
  intro h
  obtain ⟨s1, h1, _⟩ := h PubSub.constructor "hasOwnProperty" 0
  have hf : PubSub.constructor.unsubscribe "hasOwnProperty" 0 = .error .typeError := by
    decide
  rw [hf] at h1
  cases h1

/-- C14, frame of `unsubscribe`: after `unsubscribe(e, callback)`, whether it
returned or faulted, every other event has the sequence and the entry it had,
and every event that had an entry still has one, `e` included. -/
theorem unsubscribe_frame (s : PubSub) (e : EventName) (callback : Callback) :
    (∀ e2, e ≠ e2 →
        (applyCall s (.unsubscribe e callback)).seq e2 = s.seq e2 ∧
        (applyCall s (.unsubscribe e callback)).hasEntry e2 = s.hasEntry e2) ∧
      ∀ e3, s.hasEntry e3 = true →
        (applyCall s (.unsubscribe e callback)).hasEntry e3 = true := by
  cases he : s.hasEntry e with
  | true =>
    simp only [applyCall, PubSub.unsubscribe_of_hasEntry s e callback he]
    exact ⟨fun e2 hne => ⟨PubSub.seq_set_other s e e2 _ (fun h => hne h.symm),
        PubSub.hasEntry_set_other s e e2 _ (fun h => hne h.symm)⟩,
      fun e3 h3 => PubSub.hasEntry_set_of_hasEntry s e e3 _ h3⟩
  | false =>
    by_cases hk : e ∈ objectPrototypeKeys
    · have hs : applyCall s (.unsubscribe e callback) = s := by
        simp only [applyCall, PubSub.unsubscribe_inherited s e callback he hk]
      rw [hs]
      exact ⟨fun _ _ => ⟨rfl, rfl⟩, fun _ h3 => h3⟩
    · have hs : applyCall s (.unsubscribe e callback) = s := by
        simp only [applyCall, PubSub.unsubscribe_absent s e callback he hk]
      rw [hs]
      exact ⟨fun _ _ => ⟨rfl, rfl⟩, fun _ h3 => h3⟩

/-- C14, on the bus of the demo script: unsubscribing the one subscriber of
`iphone15` leaves `iphone13` as it was and keeps the key `iphone15`, now with
an empty sequence. -/
theorem unsubscribe_frame_witness :
    (applyCall ⟨[("iphone13", [0, 1]), ("iphone15", [2])]⟩
        (.unsubscribe "iphone15" 2)).seq "iphone13" = [0, 1] ∧
      (applyCall ⟨[("iphone13", [0, 1]), ("iphone15", [2])]⟩
        (.unsubscribe "iphone15" 2)).seq "iphone15" = [] ∧
      (applyCall ⟨[("iphone13", [0, 1]), ("iphone15", [2])]⟩
        (.unsubscribe "iphone15" 2)).hasEntry "iphone15" = true :=
  ⟨((unsubscribe_frame ⟨[("iphone13", [0, 1]), ("iphone15", [2])]⟩ "iphone15" 2).1
      "iphone13" (by decide)).1,
    by decide,
    (unsubscribe_frame ⟨[("iphone13", [0, 1]), ("iphone15", [2])]⟩ "iphone15" 2).2
      "iphone15" (by decide)⟩

/-! ## Dispatch and the registry -/

theorem invoke_no_actions {δ : Type} (env : Subscribers δ) (event : EventName) (data : δ)
    (st : Dispatch δ) (c : Callback) (h : (env c data st.bus).actions = []) :
    (invoke env event data st c).1 =
      ⟨st.bus, st.target, st.live, st.calls ++ [(c, data)]⟩ := by
  simp [invoke, h, runActions]

/-- A traversal whose subscribers make no call on the bus leaves the bus and
the traversed array as they were, whether or not a subscriber throws. -/
theorem forEachFrom_no_actions {δ : Type} (env : Subscribers δ) (event : EventName)
    (data : δ) :
    ∀ (n k : Nat) (st : Dispatch δ),
      (∀ c ∈ st.target, ∀ bus, (env c data bus).actions = []) →
      (forEachFrom env event data n k st).1.bus = st.bus ∧
        (forEachFrom env event data n k st).1.target = st.target := by
  intro n
  induction n with
  | zero => intro k st _; exact ⟨rfl, rfl⟩
  | succ n ih =>
    intro k st h
    cases hk : st.target[k]? with
    | none =>
      have hrec := ih (k + 1) st h
      simpa only [forEachFrom, hk] using hrec
    | some c =>
      have hc : c ∈ st.target := List.getElem?_mem hk
      have hinv := invoke_no_actions env event data st c (h c hc st.bus)
      cases hr : invoke env event data st c with
      | mk st1 f =>
        rw [hr] at hinv
        simp only at hinv
        subst hinv
        cases f with
        | some f =>
          simp only [forEachFrom, hk, hr]
          exact ⟨trivial, trivial⟩
        | none =>
          have hrec := ih (k + 1) ⟨st.bus, st.target, st.live, st.calls ++ [(c, data)]⟩ h
          simpa only [forEachFrom, hk, hr] using hrec

/-- C15: when the subscribers of the event's sequence make no `subscribe` or
`unsubscribe` call, the registry after `publish(event, data)` is the registry
before it, whether `publish` returned or failed. -/
theorem publish_keeps_registry {δ : Type} (env : Subscribers δ) (s : PubSub)
    (event : EventName) (data : δ)
    (hquiet : ∀ c ∈ s.seq event, ∀ bus, (env c data bus).actions = []) :
    (s.publish env event data).bus = s := by
  cases he : s.hasEntry event with
  | true =>
    have h := (forEachFrom_no_actions env event data (s.seq event).length 0
      ⟨s, s.seq event, true, []⟩ hquiet).1
    simpa only [PubSub.publish, PubSub.get_of_hasEntry s event he, Slot.truthy,
      Bool.not_true, Bool.false_eq_true, if_false] using h
  | false =>
    by_cases hk : event ∈ objectPrototypeKeys <;>
      simp [PubSub.publish, PubSub.get_of_not_hasEntry s event he, hk, Slot.truthy]

/-- C15, on the bus `iphone13 ↦ [0, 1, 2]` where subscriber `1` throws: the
registry is the same after the failed `publish`. -/
theorem publish_keeps_registry_witness :
    (PubSub.publish (throwing 1 42 : Subscribers Nat) ⟨[("iphone13", [0, 1, 2])]⟩
        "iphone13" 1000).bus = ⟨[("iphone13", [0, 1, 2])]⟩ :=
  publish_keeps_registry (throwing 1 42) ⟨[("iphone13", [0, 1, 2])]⟩ "iphone13" 1000
    (fun c _ _ => by
      by_cases hc : c = 1 <;> simp [throwing, hc])

/-- A traversal of subscribers that do not throw and only make calls on event
names that are not inherited from `Object.prototype` ends without a fault. -/
theorem forEachFrom_safe {δ : Type} (env : Subscribers δ) (event : EventName) (data : δ)
    (todo : List Callback) :
    ∀ (done rest : List Callback) (st : Dispatch δ), st.target = done ++ todo ++ rest →
      (∀ c ∈ todo, ∀ bus, (env c data bus).throws = none ∧
        ∀ a ∈ (env c data bus).actions, a.event ∉ objectPrototypeKeys) →
      (forEachFrom env event data todo.length done.length st).2 = none := by
  induction todo with
  | nil => intro done rest st _ _; rfl
  | cons c tl ih =>
    intro done rest st ht hsafe
    have hk : st.target[done.length]? = some c := by
      rw [ht, List.append_assoc, List.cons_append]
      exact getElem?_length_append done (tl ++ rest) c
    obtain ⟨_, ext, htarget⟩ := invoke_frame env event data st c
    have hnone := invoke_safe env event data c (hsafe c (by simp)) st
    cases hinv : invoke env event data st c with
    | mk st1 f =>
      rw [hinv] at htarget hnone
      simp only at htarget hnone
      subst hnone
      have hrec := ih (done ++ [c]) (rest ++ ext) st1 (by simp [htarget, ht])
        (fun x hx => hsafe x (by simp [hx]))
      simp only [List.length_append, List.length_singleton] at hrec
      simpa only [List.length_cons, forEachFrom, hk, hinv] using hrec

/-- Reentrant calls that cannot fault do not change what a dispatch invokes:
when the subscribers of the event's sequence do not throw and only call
`subscribe` and `unsubscribe` on event names that are not inherited from
`Object.prototype`, `publish(event, data)` invokes exactly the entries the
sequence held when it began, each once and in order. -/
theorem publish_trace_of_safe_calls {δ : Type} (env : Subscribers δ) (s : PubSub)
    (event : EventName) (data : δ)
    (hsafe : ∀ c ∈ s.seq event, ∀ bus, (env c data bus).throws = none ∧
      ∀ a ∈ (env c data bus).actions, a.event ∉ objectPrototypeKeys) :
    (s.publish env event data).calls = (s.seq event).map (fun c => (c, data)) ∧
      (s.hasEntry event = true → (s.publish env event data).fault = none) := by
  cases he : s.hasEntry event with
  | true =>
    have hnone := forEachFrom_safe env event data (s.seq event) [] []
      ⟨s, s.seq event, true, []⟩ (by simp) hsafe
    obtain ⟨m, _, hcalls, hall, _⟩ := forEachFrom_general env event data (s.seq event) [] []
      ⟨s, s.seq event, true, []⟩ (by simp)
    simp only [List.length_nil, List.nil_append] at hnone hcalls hall
    have hm : m = (s.seq event).length := hall hnone
    subst hm
    rw [List.take_length] at hcalls
    simp only [PubSub.publish, PubSub.get_of_hasEntry s event he, Slot.truthy, hcalls, hnone]
    simp
  | false =>
    rw [PubSub.seq_of_not_hasEntry s event he]
    by_cases hk : event ∈ objectPrototypeKeys <;>
      simp [PubSub.publish, PubSub.get_of_not_hasEntry s event he, hk, Slot.truthy]

/-- On the bus `iphone13 ↦ [0, 1]` where subscriber `0` unsubscribes `1` and
subscribes `2` while it runs, `publish` still invokes `0` then `1` and not
`2`; the registry it leaves is `iphone13 ↦ [0, 2]`, which the next `publish`
traverses. -/
theorem publish_meddling :
    (PubSub.publish (meddling : Subscribers Nat) ⟨[("iphone13", [0, 1])]⟩
        "iphone13" 7).calls = [(0, 7), (1, 7)] ∧
    (PubSub.publish (meddling : Subscribers Nat) ⟨[("iphone13", [0, 1])]⟩
        "iphone13" 7).bus = ⟨[("iphone13", [0, 2])]⟩ ∧
    (PubSub.publish (meddling : Subscribers Nat) ⟨[("iphone13", [0, 2])]⟩
        "iphone13" 7).calls = [(0, 7), (2, 7)] :=
  ⟨(publish_trace_of_safe_calls meddling ⟨[("iphone13", [0, 1])]⟩ "iphone13" 7
      (fun c _ _ => by
        by_cases hc : c = 0
        · subst hc
          refine ⟨rfl, fun a ha => ?_⟩
          have ha2 : a = .unsubscribe "iphone13" 1 ∨ a = .subscribe "iphone13" 2 := by
            simpa [meddling] using ha
          rcases ha2 with h | h <;> subst h <;> decide
        · simp [meddling, hc])).1,
    by decide, by decide⟩

/-- C17 fails on the code: it is not the case that, for all subscribers that
only call `subscribe` and `unsubscribe` and do not throw, `publish` invokes
exactly the entries the event's sequence held when it began. On the bus
`iphone13 ↦ [0, 1]`, subscriber `0` calls `subscribe('toString', f)` while it
runs; that call faults on the inherited `Object.prototype.toString`, the
`TypeError` leaves `publish`, and subscriber `1` is not invoked. -/
theorem publish_trace_fails_on_reentrant_inherited_name :
    ¬ ∀ (env : Subscribers Nat) (s : PubSub) (event : EventName) (data : Nat),
        (∀ c bus, (env c data bus).throws = none) →
        (s.publish env event data).calls = (s.seq event).map (fun c => (c, data)) := by
  intro h
  have hthrows : ∀ (c : Callback) (bus : PubSub),
      ((prying : Subscribers Nat) c 7 bus).throws = none := by
    intro c bus
    by_cases hc : c = 0 <;> simp [prying, hc]
  have := h prying ⟨[("iphone13", [0, 1])]⟩ "iphone13" 7 hthrows
  revert this
  decide

/-! ## Buses that are alike -/

namespace PubSub

/-- What a successful `unsubscribe` did: the filter on the event's sequence,
nothing to the other events, and no key added or removed. -/
theorem unsubscribe_ok_inv (s s1 : PubSub) (e : EventName) (c : Callback)
    (h : s.unsubscribe e c = .ok s1) :
    s1.seq e = (s.seq e).filter (fun cb => decide (cb ≠ c)) ∧
      (∀ e2, e2 ≠ e → s1.seq e2 = s.seq e2) ∧ ∀ e2, s1.hasEntry e2 = s.hasEntry e2 := by
  cases he : s.hasEntry e with
  | true =>
    rw [unsubscribe_of_hasEntry s e c he] at h
    simp only [Except.ok.injEq] at h
    subst h
    refine ⟨by rw [seq_set_same, filter_bne_eq], fun e2 hne => seq_set_other s e e2 _ hne, ?_⟩
    intro e2
    by_cases hne : e2 = e
    · subst hne
      rw [hasEntry_set_same, he]
    · exact hasEntry_set_other s e e2 _ hne
  | false =>
    by_cases hk : e ∈ objectPrototypeKeys
    · rw [unsubscribe_inherited s e c he hk] at h
      cases h
    · rw [unsubscribe_absent s e c he hk] at h
      simp only [Except.ok.injEq] at h
      subst h
      exact ⟨by simp [seq_of_not_hasEntry s e he], fun _ _ => rfl, fun _ => rfl⟩

/-- The methods fault in one case only, and then with a `TypeError`. -/
theorem subscribe_cases (s : PubSub) (e : EventName) (c : Callback) :
    (s.hasEntry e = false ∧ e ∈ objectPrototypeKeys ∧
        s.subscribe e c = .error .typeError) ∨
      ((s.hasEntry e = true ∨ e ∉ objectPrototypeKeys) ∧
        s.subscribe e c = .ok (s.set e (s.seq e ++ [c]), ⟨e, c⟩)) := by
  by_cases hok : s.hasEntry e = true ∨ e ∉ objectPrototypeKeys
  · exact Or.inr ⟨hok, subscribe_ok s e c hok⟩
  · have he : s.hasEntry e = false := by
      cases hh : s.hasEntry e with
      | true => exact absurd (Or.inl hh) hok
      | false => rfl
    have hk : e ∈ objectPrototypeKeys := by
      by_contra hk
      exact hok (Or.inr hk)
    exact Or.inl ⟨he, hk, subscribe_inherited s e c he hk⟩

theorem unsubscribe_cases (s : PubSub) (e : EventName) (c : Callback) :
    (s.hasEntry e = false ∧ e ∈ objectPrototypeKeys ∧
        s.unsubscribe e c = .error .typeError) ∨
      ((s.hasEntry e = true ∨ e ∉ objectPrototypeKeys) ∧
        ∃ s1, s.unsubscribe e c = .ok s1) := by
  cases he : s.hasEntry e with
  | true => exact Or.inr ⟨Or.inl rfl, _, unsubscribe_of_hasEntry s e c he⟩
  | false =>
    by_cases hk : e ∈ objectPrototypeKeys
    · exact Or.inl ⟨rfl, hk, unsubscribe_inherited s e c he hk⟩
    · exact Or.inr ⟨Or.inr hk, _, unsubscribe_absent s e c he hk⟩

end PubSub

theorem alike_refl (s : PubSub) : Alike s s := fun _ => ⟨rfl, fun _ => rfl⟩

/-- On buses that are alike, the one case in which a method faults is the same. -/
theorem alike_ok_iff (s t : PubSub) (e : EventName) (h : Alike s t) :
    (s.hasEntry e = true ∨ e ∉ objectPrototypeKeys) ↔
      (t.hasEntry e = true ∨ e ∉ objectPrototypeKeys) := by
  by_cases hk : e ∈ objectPrototypeKeys
  · rw [(h e).2 hk]
  · simp [hk]

/-- On buses that are alike, `subscribe` faults on both or returns on both, and
then leaves buses that are alike, each with an entry for the event and with
its other keys as they were. -/
theorem subscribe_alike (s t : PubSub) (e : EventName) (c : Callback) (h : Alike s t) :
    (s.subscribe e c = .error .typeError ∧ t.subscribe e c = .error .typeError) ∨
      ∃ s1 t1, s.subscribe e c = .ok (s1, ⟨e, c⟩) ∧ t.subscribe e c = .ok (t1, ⟨e, c⟩) ∧
        Alike s1 t1 ∧ s1.hasEntry e = true ∧ t1.hasEntry e = true ∧
        ∀ e2, e2 ≠ e → s1.hasEntry e2 = s.hasEntry e2 ∧ t1.hasEntry e2 = t.hasEntry e2 := by
  rcases PubSub.subscribe_cases s e c with ⟨hes, hk, hs⟩ | ⟨hoks, hs⟩
  · have het : t.hasEntry e = false := by rw [← (h e).2 hk]; exact hes
    exact Or.inl ⟨hs, PubSub.subscribe_inherited t e c het hk⟩
  · have hokt := (alike_ok_iff s t e h).mp hoks
    refine Or.inr ⟨_, _, hs, PubSub.subscribe_ok t e c hokt, ?_,
      PubSub.hasEntry_set_same s e _, PubSub.hasEntry_set_same t e _,
      fun e2 hne => ⟨PubSub.hasEntry_set_other s e e2 _ hne,
        PubSub.hasEntry_set_other t e e2 _ hne⟩⟩
    intro e2
    by_cases hne : e2 = e
    · subst hne
      rw [PubSub.seq_set_same, PubSub.seq_set_same, PubSub.hasEntry_set_same,
        PubSub.hasEntry_set_same, (h e2).1]
      exact ⟨rfl, fun _ => rfl⟩
    · rw [PubSub.seq_set_other s e e2 _ hne, PubSub.seq_set_other t e e2 _ hne,
        PubSub.hasEntry_set_other s e e2 _ hne, PubSub.hasEntry_set_other t e e2 _ hne]
      exact h e2

/-- On buses that are alike, `unsubscribe` faults on both or returns on both,
and then leaves buses that are alike, with the keys they had. -/
theorem unsubscribe_alike (s t : PubSub) (e : EventName) (c : Callback) (h : Alike s t) :
    (s.unsubscribe e c = .error .typeError ∧ t.unsubscribe e c = .error .typeError) ∨
      ∃ s1 t1, s.unsubscribe e c = .ok s1 ∧ t.unsubscribe e c = .ok t1 ∧
        Alike s1 t1 ∧
        ∀ e2, s1.hasEntry e2 = s.hasEntry e2 ∧ t1.hasEntry e2 = t.hasEntry e2 := by
  rcases PubSub.unsubscribe_cases s e c with ⟨hes, hk, hs⟩ | ⟨hoks, s1, hs⟩
  · have het : t.hasEntry e = false := by rw [← (h e).2 hk]; exact hes
    exact Or.inl ⟨hs, PubSub.unsubscribe_inherited t e c het hk⟩
  · have hokt := (alike_ok_iff s t e h).mp hoks
    rcases PubSub.unsubscribe_cases t e c with ⟨het, hk, _⟩ | ⟨_, t1, ht⟩
    · rcases hokt with hokt | hokt
      · rw [het] at hokt
        cases hokt
      · exact absurd hk hokt
    · obtain ⟨hs1, hs2, hs3⟩ := PubSub.unsubscribe_ok_inv s s1 e c hs
      obtain ⟨ht1, ht2, ht3⟩ := PubSub.unsubscribe_ok_inv t t1 e c ht
      refine Or.inr ⟨s1, t1, hs, ht, ?_, fun e2 => ⟨hs3 e2, ht3 e2⟩⟩
      intro e2
      rw [hs3 e2, ht3 e2]
      refine ⟨?_, (h e2).2⟩
      by_cases hne : e2 = e
      · subst hne
        rw [hs1, ht1, (h e2).1]
      · rw [hs2 e2 hne, ht2 e2 hne]
        exact (h e2).1

/-- A call made by a subscriber keeps two traversals in step. -/
theorem runAction_alike {δ : Type} (event : EventName) (st st2 : Dispatch δ) (a : Action)
    (h : DispatchAlike event st st2) :
    (runAction event st a = .error .typeError ∧ runAction event st2 a = .error .typeError) ∨
      ∃ st1 st3, runAction event st a = .ok st1 ∧ runAction event st2 a = .ok st3 ∧
        DispatchAlike event st1 st3 := by
  obtain ⟨hal, hent, htar, hlive, hcalls⟩ := h
  cases a with
  | subscribe e c =>
    rcases subscribe_alike st.bus st2.bus e c hal with
      ⟨h1, h2⟩ | ⟨s1, t1, h1, h2, hal1, he1, he2, hoth⟩
    · exact Or.inl ⟨by simp [runAction, h1], by simp [runAction, h2]⟩
    · have hr1 : runAction event st (.subscribe e c) = .ok ⟨s1,
          if e = event ∧ st.live = true then st.target ++ [c] else st.target,
          st.live, st.calls⟩ := by simp only [runAction, h1]
      have hr2 : runAction event st2 (.subscribe e c) = .ok ⟨t1,
          if e = event ∧ st2.live = true then st2.target ++ [c] else st2.target,
          st2.live, st2.calls⟩ := by simp only [runAction, h2]
      refine Or.inr ⟨_, _, hr1, hr2, ?_⟩
      refine ⟨hal1, ?_, by simp only [htar, hlive], hlive, hcalls⟩
      by_cases hne : event = e
      · subst hne
        simp only [he1, he2]
      · simp only [(hoth event hne).1, (hoth event hne).2, hent]
  | unsubscribe e c =>
    rcases unsubscribe_alike st.bus st2.bus e c hal with
      ⟨h1, h2⟩ | ⟨s1, t1, h1, h2, hal1, hkeys⟩
    · exact Or.inl ⟨by simp [runAction, h1], by simp [runAction, h2]⟩
    · have hr1 : runAction event st (.unsubscribe e c) = .ok ⟨s1, st.target,
          st.live && !(decide (e = event) && st.bus.hasEntry e), st.calls⟩ := by
        simp only [runAction, h1]
      have hr2 : runAction event st2 (.unsubscribe e c) = .ok ⟨t1, st2.target,
          st2.live && !(decide (e = event) && st2.bus.hasEntry e), st2.calls⟩ := by
        simp only [runAction, h2]
      refine Or.inr ⟨_, _, hr1, hr2, ?_⟩
      refine ⟨hal1, ?_, htar, ?_, hcalls⟩
      · simp only [(hkeys event).1, (hkeys event).2, hent]
      · by_cases hne : e = event
        · subst hne
          simp only [hlive, hent]
        · simp [hne, hlive]

theorem runActions_alike {δ : Type} (event : EventName) (acts : List Action) :
    ∀ st st2 : Dispatch δ, DispatchAlike event st st2 →
      (runActions event st acts).2 = (runActions event st2 acts).2 ∧
        DispatchAlike event (runActions event st acts).1 (runActions event st2 acts).1 := by
  induction acts with
  | nil => intro st st2 h; exact ⟨rfl, h⟩
  | cons a rest ih =>
    intro st st2 h
    rcases runAction_alike event st st2 a h with ⟨h1, h2⟩ | ⟨st1, st3, h1, h2, h3⟩
    · simp only [runActions, h1, h2]
      exact ⟨trivial, h⟩
    · simp only [runActions, h1, h2]
      exact ih st1 st3 h3

/-- An invocation of a subscriber that does not inspect the registry keeps two
traversals in step, with the same outcome. -/
theorem invoke_alike {δ : Type} (env : Subscribers δ) (event : EventName) (data : δ)
    (hobl : Oblivious env data) (st st2 : Dispatch δ) (c : Callback)
    (h : DispatchAlike event st st2) :
    (invoke env event data st c).2 = (invoke env event data st2 c).2 ∧
      DispatchAlike event (invoke env event data st c).1 (invoke env event data st2 c).1 := by
  obtain ⟨hal, hent, htar, hlive, hcalls⟩ := h
  have hstep := runActions_alike event (env c data st.bus).actions
    ⟨st.bus, st.target, st.live, st.calls ++ [(c, data)]⟩
    ⟨st2.bus, st2.target, st2.live, st2.calls ++ [(c, data)]⟩
    ⟨hal, hent, htar, hlive, by simp only [hcalls]⟩
  simp only [invoke, ← hobl c st.bus st2.bus]
  generalize runActions event ⟨st.bus, st.target, st.live, st.calls ++ [(c, data)]⟩
    (env c data st.bus).actions = r at hstep
  generalize runActions event ⟨st2.bus, st2.target, st2.live, st2.calls ++ [(c, data)]⟩
    (env c data st.bus).actions = r2 at hstep
  obtain ⟨st1, f⟩ := r
  obtain ⟨st3, f2⟩ := r2
  obtain ⟨hf, hd⟩ := hstep
  simp only at hf hd
  subst hf
  cases f <;> exact ⟨rfl, hd⟩

theorem forEachFrom_alike {δ : Type} (env : Subscribers δ) (event : EventName) (data : δ)
    (hobl : Oblivious env data) :
    ∀ (n k : Nat) (st st2 : Dispatch δ), DispatchAlike event st st2 →
      (forEachFrom env event data n k st).2 = (forEachFrom env event data n k st2).2 ∧
        DispatchAlike event (forEachFrom env event data n k st).1
          (forEachFrom env event data n k st2).1 := by
  intro n
  induction n with
  | zero => intro k st st2 h; exact ⟨rfl, h⟩
  | succ n ih =>
    intro k st st2 h
    have htar : st.target = st2.target := h.2.2.1
    cases hk : st.target[k]? with
    | none =>
      have hk2 : st2.target[k]? = none := by rw [← htar]; exact hk
      simp only [forEachFrom, hk, hk2]
      exact ih (k + 1) st st2 h
    | some c =>
      have hk2 : st2.target[k]? = some c := by rw [← htar]; exact hk
      have hinv := invoke_alike env event data hobl st st2 c h
      cases hr : invoke env event data st c with
      | mk st1 f =>
        cases hr2 : invoke env event data st2 c with
        | mk st3 f2 =>
          rw [hr, hr2] at hinv
          obtain ⟨hf, hd⟩ := hinv
          simp only at hf hd
          subst hf
          cases f with
          | some f =>
            simp only [forEachFrom, hk, hk2, hr, hr2]
            exact ⟨trivial, hd⟩
          | none =>
            simp only [forEachFrom, hk, hk2, hr, hr2]
            exact ih (k + 1) st1 st3 hd

/-- On buses that are alike, and with subscribers that do not inspect the
registry, `publish` invokes the same subscribers, ends the same way and
leaves buses that are alike. -/
theorem publish_alike {δ : Type} (env : Subscribers δ) (data : δ)
    (hobl : Oblivious env data) (s t : PubSub) (e : EventName) (h : Alike s t) :
    (s.publish env e data).calls = (t.publish env e data).calls ∧
      (s.publish env e data).fault = (t.publish env e data).fault ∧
      Alike (s.publish env e data).bus (t.publish env e data).bus := by
  cases hs : s.hasEntry e with
  | true =>
    cases ht : t.hasEntry e with
    | true =>
      obtain ⟨hf, hal, _, _, _, hcalls⟩ := forEachFrom_alike env e data hobl
        (s.seq e).length 0 ⟨s, s.seq e, true, []⟩ ⟨t, s.seq e, true, []⟩
        ⟨h, by simp only [hs, ht], rfl, rfl, rfl⟩
      simp only [PubSub.publish, PubSub.get_of_hasEntry s e hs,
        PubSub.get_of_hasEntry t e ht, Slot.truthy, ← (h e).1]
      exact ⟨hcalls, hf, hal⟩
    | false =>
      have hk : e ∉ objectPrototypeKeys := by
        intro hk
        rw [(h e).2 hk, ht] at hs
        cases hs
      have hseq : s.seq e = [] := by rw [(h e).1, PubSub.seq_of_not_hasEntry t e ht]
      obtain ⟨a1, a2, a3⟩ := PubSub.publish_no_subscribers env s e data (Or.inr ⟨hs, hseq⟩)
      obtain ⟨b1, b2, b3⟩ := PubSub.publish_no_subscribers env t e data (Or.inl ⟨ht, hk⟩)
      rw [a1, a2, a3, b1, b2, b3]
      exact ⟨rfl, rfl, h⟩
  | false =>
    cases ht : t.hasEntry e with
    | true =>
      have hk : e ∉ objectPrototypeKeys := by
        intro hk
        rw [(h e).2 hk, ht] at hs
        cases hs
      have hseq : t.seq e = [] := by rw [← (h e).1, PubSub.seq_of_not_hasEntry s e hs]
      obtain ⟨a1, a2, a3⟩ := PubSub.publish_no_subscribers env s e data (Or.inl ⟨hs, hk⟩)
      obtain ⟨b1, b2, b3⟩ := PubSub.publish_no_subscribers env t e data (Or.inr ⟨ht, hseq⟩)
      rw [a1, a2, a3, b1, b2, b3]
      exact ⟨rfl, rfl, h⟩
    | false =>
      by_cases hk : e ∈ objectPrototypeKeys
      · simp only [PubSub.publish, PubSub.get_of_not_hasEntry s e hs,
          PubSub.get_of_not_hasEntry t e ht, hk, Slot.truthy]
        exact ⟨rfl, rfl, h⟩
      · simp only [PubSub.publish, PubSub.get_of_not_hasEntry s e hs,
          PubSub.get_of_not_hasEntry t e ht, hk, Slot.truthy]
        exact ⟨rfl, rfl, h⟩

/-- C16: when `callback` is not registered under `event`,
`subscribe(event, callback)` followed at once by the returned handle gives
back, for every event, the subscriber sequence it had before the subscribe
(an event with no entry counting as the empty sequence): the bus is alike the
one before, and every later `publish`, with subscribers that do not inspect
the registry, invokes the same subscribers and ends the same way as if the
subscribe had not happened. -/
theorem handle_undoes_subscribe {δ : Type} (env : Subscribers δ) (s s1 : PubSub)
    (event : EventName) (callback : Callback) (h : Handle)
    (hsub : s.subscribe event callback = .ok (s1, h))
    (hnew : callback ∉ s.seq event) :
    ∃ s2, h.invoke s1 = .ok s2 ∧ (∀ e, s2.seq e = s.seq e) ∧ Alike s2 s ∧
      ∀ (e : EventName) (data : δ), Oblivious env data →
        (s2.publish env e data).calls = (s.publish env e data).calls ∧
        (s2.publish env e data).fault = (s.publish env e data).fault := by
  obtain ⟨hs1, hh⟩ := PubSub.subscribe_ok_inv s s1 event callback h hsub
  have he1 : s1.hasEntry event = true := by
    rw [hs1]
    exact PubSub.hasEntry_set_same s event _
  obtain ⟨s2, hun, _, _⟩ := unsubscribe_stores_filter s1 event callback he1
  obtain ⟨hq1, hq2, hq3⟩ := PubSub.unsubscribe_ok_inv s1 s2 event callback hun
  have hseq : ∀ e, s2.seq e = s.seq e := by
    intro e
    by_cases hne : e = event
    · subst hne
      rw [hq1, hs1, PubSub.seq_set_same, List.filter_append]
      have hf : (s.seq e).filter (fun cb => decide (cb ≠ callback)) = s.seq e := by
        rw [List.filter_eq_self]
        intro a ha
        have : a ≠ callback := fun hac => hnew (hac ▸ ha)
        simpa using this
      rw [hf]
      simp
    · rw [hq2 e hne, hs1, PubSub.seq_set_other s event e _ hne]
  have halike : Alike s2 s := by
    intro e
    refine ⟨hseq e, fun hk => ?_⟩
    rw [hq3 e]
    by_cases hne : e = event
    · subst hne
      rw [he1]
      rcases PubSub.subscribe_cases s e callback with ⟨_, _, hf⟩ | ⟨hok, _⟩
      · rw [hf] at hsub
        cases hsub
      · rcases hok with hok | hok
        · exact hok.symm
        · exact absurd hk hok
    · rw [hs1, PubSub.hasEntry_set_other s event e _ hne]
  refine ⟨s2, by rw [hh]; exact hun, hseq, halike, fun e data hobl => ?_⟩
  obtain ⟨hc, hf, _⟩ := publish_alike env data hobl s2 s e halike
  exact ⟨hc, hf⟩

/-- C16, on the bus `iphone13 ↦ [0, 1]`: subscribing `2` to the new event
`iphone15` and calling the handle leaves `iphone13` as it was and `iphone15`
with an empty sequence. -/
theorem handle_undoes_subscribe_witness :
    (⟨[("iphone13", [0, 1])]⟩ : PubSub).subscribe "iphone15" 2 =
      .ok (⟨[("iphone13", [0, 1]), ("iphone15", [2])]⟩, ⟨"iphone15", 2⟩) ∧
    2 ∉ (⟨[("iphone13", [0, 1])]⟩ : PubSub).seq "iphone15" ∧
    ∃ s2, (⟨"iphone15", 2⟩ : Handle).invoke ⟨[("iphone13", [0, 1]), ("iphone15", [2])]⟩
        = .ok s2 ∧
      (∀ e, s2.seq e = (⟨[("iphone13", [0, 1])]⟩ : PubSub).seq e) ∧
      Alike s2 ⟨[("iphone13", [0, 1])]⟩ ∧
      ∀ (e : EventName) (data : Nat), Oblivious (logOnly : Subscribers Nat) data →
        (s2.publish logOnly e data).calls =
          (PubSub.publish logOnly ⟨[("iphone13", [0, 1])]⟩ e data).calls ∧
        (s2.publish logOnly e data).fault =
          (PubSub.publish logOnly ⟨[("iphone13", [0, 1])]⟩ e data).fault :=
  ⟨by decide, by decide,
    handle_undoes_subscribe logOnly ⟨[("iphone13", [0, 1])]⟩
      ⟨[("iphone13", [0, 1]), ("iphone15", [2])]⟩ "iphone15" 2 ⟨"iphone15", 2⟩
      (by decide) (by decide)⟩

end Observer
